import Mathlib

/-!
Verification of the message-preparation / template-engine and fake-streaming
subsystem of the `hajimir` reverse proxy (Python sources `src/template_handler.py`
and `src/streaming_utils.py`), as a shallow embedding in Lean 4.

Python/JSON values are embedded as the inductive `JValue` (JSON numbers are
restricted to integers: every number the subsystem manipulates — status codes,
timestamps, indices — is integral, and the embedded `jsonLoads` parser rejects
non-integer numeric literals rather than mis-modelling floats).  Python `dict`s
are insertion-ordered association lists; `dict.get`/assignment keep the
first-occurrence position, as in CPython.
-/

namespace Hajimir

/-- A JSON / Python value.  `num` carries an `Int` (see module comment). -/
inductive JValue where
  | null
  | bool (b : Bool)
  | num (n : Int)
  | str (s : String)
  | arr (elems : List JValue)
  | obj (fields : List (String × JValue))
deriving Repr

namespace JValue

mutual
/-- Structural boolean equality (the derive handler does not support this
nested inductive, so it is written out). -/
def beq : JValue → JValue → Bool
  | .null, .null => true
  | .bool a, .bool b => a == b
  | .num a, .num b => a == b
  | .str a, .str b => a == b
  | .arr a, .arr b => beqArr a b
  | .obj a, .obj b => beqObj a b
  | _, _ => false

def beqArr : List JValue → List JValue → Bool
  | [], [] => true
  | a :: as, b :: bs => beq a b && beqArr as bs
  | _, _ => false

def beqObj : List (String × JValue) → List (String × JValue) → Bool
  | [], [] => true
  | (ka, va) :: as, (kb, vb) :: bs => ka == kb && beq va vb && beqObj as bs
  | _, _ => false
end

mutual
theorem beq_iff : ∀ a b, beq a b = true ↔ a = b
  | .null, b => by cases b <;> simp [beq]
  | .bool x, b => by cases b <;> simp [beq]
  | .num x, b => by cases b <;> simp [beq]
  | .str x, b => by cases b <;> simp [beq]
  | .arr x, b => by cases b <;> simp [beq, beqArr_iff x]
  | .obj x, b => by cases b <;> simp [beq, beqObj_iff x]

theorem beqArr_iff : ∀ a b, beqArr a b = true ↔ a = b
  | [], b => by cases b <;> simp [beqArr]
  | x :: xs, b => by
      cases b <;> simp [beqArr, beq_iff x, beqArr_iff xs]

theorem beqObj_iff : ∀ a b, beqObj a b = true ↔ a = b
  | [], b => by cases b <;> simp [beqObj]
  | (k, v) :: xs, b => by
      cases b with
      | nil => simp [beqObj]
      | cons hd tl =>
          obtain ⟨k₂, v₂⟩ := hd
          simp [beqObj, beq_iff v, beqObj_iff xs, and_assoc]
end

instance : DecidableEq JValue := fun a b => decidable_of_iff _ (beq_iff a b)

/-- Python truthiness of a value (`bool(v)`): `None`, `False`, `0`, `""`,
`[]` and the empty dict are falsy, everything else truthy. -/
def truthy : JValue → Bool
  | .null => false
  | .bool b => b
  | .num n => n != 0
  | .str s => s ≠ ""
  | .arr l => !l.isEmpty
  | .obj l => !l.isEmpty

/-- `d.get(k)` on an insertion-ordered dict: the value at the first (only)
occurrence of `k`, if any. -/
def objGet (fields : List (String × JValue)) (k : String) : Option JValue :=
  match fields with
  | [] => none
  | (k₀, v) :: rest => if k₀ = k then some v else objGet rest k

/-- `d[k] = v` on an insertion-ordered dict: overwrite in place if the key
exists, otherwise append at the end — CPython's insertion-order semantics. -/
def objSet (fields : List (String × JValue)) (k : String) (v : JValue) :
    List (String × JValue) :=
  match fields with
  | [] => [(k, v)]
  | (k₀, v₀) :: rest =>
      if k₀ = k then (k₀, v) :: rest else (k₀, v₀) :: objSet rest k v

end JValue

/-! ### `json.dumps` — serialisation

`streaming_utils` serialises chunks with `json.dumps(x)` (compact separators
`", "`/`": "`, `ensure_ascii=True`); `template_handler` serialises the
JSON-payload result with `json.dumps(x, ensure_ascii=False, indent=2)`.
Both are embedded below. -/

/-- Lowercase hex digit, as used by Python's `\uXXXX` escapes. -/
def hexDigit (n : Nat) : Char :=
  if n < 10 then Char.ofNat ('0'.toNat + n) else Char.ofNat ('a'.toNat + (n - 10))

/-- Four lowercase hex digits. -/
def hex4 (n : Nat) : String :=
  String.mk [hexDigit (n / 4096 % 16), hexDigit (n / 256 % 16),
             hexDigit (n / 16 % 16), hexDigit (n % 16)]

/-- One character of a JSON string literal, as `json.dumps` renders it.
With `ensureAscii` every non-ASCII character becomes `\uXXXX` (a surrogate
pair above the BMP), exactly as CPython's encoder does. -/
def escapeChar (ensureAscii : Bool) (c : Char) : String :=
  if c = '"' then "\\\""
  else if c = '\\' then "\\\\"
  else if c = '\n' then "\\n"
  else if c = '\r' then "\\r"
  else if c = '\t' then "\\t"
  else if c = '\x08' then "\\b"
  else if c = '\x0c' then "\\f"
  else if c.toNat < 0x20 then "\\u" ++ hex4 c.toNat
  else if ensureAscii && 0x7f ≤ c.toNat then
    if c.toNat ≤ 0xffff then "\\u" ++ hex4 c.toNat
    else
      "\\u" ++ hex4 (0xd800 + (c.toNat - 0x10000) / 0x400) ++
      "\\u" ++ hex4 (0xdc00 + (c.toNat - 0x10000) % 0x400)
  else String.singleton c

/-- A JSON string literal body. -/
def escapeString (ensureAscii : Bool) (s : String) : String :=
  s.data.foldl (fun acc c => acc ++ escapeChar ensureAscii c) ""

mutual
/-- Compact `json.dumps(v)` with default separators, as used in
`streaming_utils.py` (`ensure_ascii` defaults to `True` there). -/
def jsonDumps (ea : Bool) : JValue → String
  | .null => "null"
  | .bool true => "true"
  | .bool false => "false"
  | .num n => toString n
  | .str s => "\"" ++ escapeString ea s ++ "\""
  | .arr l => "[" ++ dumpsArr ea l ++ "]"
  | .obj l => "\x7b" ++ dumpsObj ea l ++ "\x7d"

def dumpsArr (ea : Bool) : List JValue → String
  | [] => ""
  | [v] => jsonDumps ea v
  | v :: rest => jsonDumps ea v ++ ", " ++ dumpsArr ea rest

def dumpsObj (ea : Bool) : List (String × JValue) → String
  | [] => ""
  | [(k, v)] => "\"" ++ escapeString ea k ++ "\": " ++ jsonDumps ea v
  | (k, v) :: rest =>
      "\"" ++ escapeString ea k ++ "\": " ++ jsonDumps ea v ++ ", " ++ dumpsObj ea rest
end

/-- `n` spaces. -/
def spaces (n : Nat) : String := String.mk (List.replicate n ' ')

mutual
/-- `json.dumps(v, ensure_ascii=False, indent=2)` at nesting level `lvl`
(the enclosing indentation, in spaces), as used by the JSON-payload regex
action in `template_handler.py`.  Empty containers print without newlines,
matching CPython. -/
def jsonDumpsPretty (lvl : Nat) : JValue → String
  | .null => "null"
  | .bool true => "true"
  | .bool false => "false"
  | .num n => toString n
  | .str s => "\"" ++ escapeString false s ++ "\""
  | .arr [] => "[]"
  | .arr (v :: rest) =>
      "[\n" ++ prettyArr (lvl + 2) (v :: rest) ++ "\n" ++ spaces lvl ++ "]"
  | .obj [] => "\x7b\x7d"
  | .obj (kv :: rest) =>
      "\x7b\n" ++ prettyObj (lvl + 2) (kv :: rest) ++ "\n" ++ spaces lvl ++ "\x7d"

def prettyArr (lvl : Nat) : List JValue → String
  | [] => ""
  | [v] => spaces lvl ++ jsonDumpsPretty lvl v
  | v :: rest => spaces lvl ++ jsonDumpsPretty lvl v ++ ",\n" ++ prettyArr lvl rest

def prettyObj (lvl : Nat) : List (String × JValue) → String
  | [] => ""
  | [(k, v)] => spaces lvl ++ "\"" ++ escapeString false k ++ "\": " ++ jsonDumpsPretty lvl v
  | (k, v) :: rest =>
      spaces lvl ++ "\"" ++ escapeString false k ++ "\": " ++ jsonDumpsPretty lvl v ++
      ",\n" ++ prettyObj lvl rest
end

/-! ### `json.loads` — parsing

A strict-mode JSON parser over the character list, modelling the subset of
`json.loads` this subsystem exercises.  It is sound with respect to CPython:
whenever it returns `some v`, CPython's parser accepts the same text and
yields the same value.  It is conservative in two places — non-integer
numeric literals and `\uXXXX` string escapes are rejected (`none`) instead of
being modelled — so no theorem below relies on the `none` case except at
concrete inputs CPython also rejects. -/

def isJsonWs (c : Char) : Bool := c == ' ' || c == '\t' || c == '\n' || c == '\r'

def skipWs : List Char → List Char
  | c :: cs => if isJsonWs c then skipWs cs else c :: cs
  | [] => []

def isDigitChar (c : Char) : Bool := '0' ≤ c && c ≤ '9'

def takeDigits : List Char → List Char × List Char
  | c :: cs =>
      if isDigitChar c then
        let (ds, r) := takeDigits cs
        (c :: ds, r)
      else ([], c :: cs)
  | [] => ([], [])

def digitsToNat (ds : List Char) : Nat :=
  ds.foldl (fun acc c => acc * 10 + (c.toNat - '0'.toNat)) 0

/-- JSON string literal body (after the opening quote), strict mode:
raw control characters are rejected, `\uXXXX` escapes are out of the
modelled subset. -/
def parseStringAux (acc : List Char) : List Char → Option (String × List Char)
  | [] => none
  | c :: cs =>
      if c = '"' then some (String.mk acc.reverse, cs)
      else if c = '\\' then
        match cs with
        | [] => none
        | e :: cs₂ =>
            if e = '"' then parseStringAux ('"' :: acc) cs₂
            else if e = '\\' then parseStringAux ('\\' :: acc) cs₂
            else if e = '/' then parseStringAux ('/' :: acc) cs₂
            else if e = 'b' then parseStringAux ('\x08' :: acc) cs₂
            else if e = 'f' then parseStringAux ('\x0c' :: acc) cs₂
            else if e = 'n' then parseStringAux ('\n' :: acc) cs₂
            else if e = 'r' then parseStringAux ('\r' :: acc) cs₂
            else if e = 't' then parseStringAux ('\t' :: acc) cs₂
            else none
      else if c.toNat < 0x20 then none
      else parseStringAux (c :: acc) cs
termination_by cs => cs.length

/-- JSON integer literal: optional minus, `0` or a nonzero-led digit run;
a following `.`/`e`/`E` (a float) falls outside the modelled subset. -/
def parseNumber (cs : List Char) : Option (Int × List Char) :=
  let (neg, cs₁) : Bool × List Char :=
    match cs with
    | '-' :: r => (true, r)
    | _ => (false, cs)
  match cs₁ with
  | [] => none
  | c :: _ =>
      if !isDigitChar c then none
      else
        let (ds, rest) := takeDigits cs₁
        if 1 < ds.length ∧ ds.head? = some '0' then none
        else
          match rest with
          | e :: _ =>
              if e = '.' ∨ e = 'e' ∨ e = 'E' then none
              else some (if neg then -(digitsToNat ds : Int) else (digitsToNat ds : Int), rest)
          | [] => some (if neg then -(digitsToNat ds : Int) else (digitsToNat ds : Int), rest)

mutual
def parseValue : Nat → List Char → Option (JValue × List Char)
  | 0, _ => none
  | Nat.succ fuel, cs =>
      match skipWs cs with
      | [] => none
      | c :: rest =>
          if c = 'n' then
            match rest with
            | 'u' :: 'l' :: 'l' :: r => some (.null, r)
            | _ => none
          else if c = 't' then
            match rest with
            | 'r' :: 'u' :: 'e' :: r => some (.bool true, r)
            | _ => none
          else if c = 'f' then
            match rest with
            | 'a' :: 'l' :: 's' :: 'e' :: r => some (.bool false, r)
            | _ => none
          else if c = '"' then
            (parseStringAux [] rest).map fun p => (.str p.1, p.2)
          else if c = '[' then
            match skipWs rest with
            | ']' :: r => some (.arr [], r)
            | r => (parseArrItems fuel r).map fun p => (.arr p.1, p.2)
          else if c = '\x7b' then
            match skipWs rest with
            | '\x7d' :: r => some (.obj [], r)
            | r =>
                -- duplicate keys: CPython assigns pair by pair, so a later
                -- duplicate overwrites in place — exactly `objSet` folded
                -- over the pairs in textual order.
                (parseObjItems fuel r).map fun p =>
                  (.obj (p.1.foldl (fun acc kv => JValue.objSet acc kv.1 kv.2) []), p.2)
          else
            (parseNumber (c :: rest)).map fun p => (.num p.1, p.2)

def parseArrItems : Nat → List Char → Option (List JValue × List Char)
  | 0, _ => none
  | Nat.succ fuel, cs =>
      (parseValue fuel cs).bind fun p =>
        match skipWs p.2 with
        | ',' :: r => (parseArrItems fuel r).map fun q => (p.1 :: q.1, q.2)
        | ']' :: r => some ([p.1], r)
        | _ => none

def parseObjItems : Nat → List Char → Option (List (String × JValue) × List Char)
  | 0, _ => none
  | Nat.succ fuel, cs =>
      match skipWs cs with
      | '"' :: r =>
          (parseStringAux [] r).bind fun kp =>
            match skipWs kp.2 with
            | ':' :: r₂ =>
                (parseValue fuel r₂).bind fun vp =>
                  match skipWs vp.2 with
                  | ',' :: r₃ =>
                      (parseObjItems fuel r₃).map fun q => ((kp.1, vp.1) :: q.1, q.2)
                  | '\x7d' :: r₃ => some ([(kp.1, vp.1)], r₃)
                  | _ => none
            | _ => none
      | _ => none
end

/-- `json.loads(s)`: parse one value, allow trailing whitespace, require the
rest of the input to be empty. -/
def jsonLoads (s : String) : Option JValue :=
  (parseValue (2 * s.length + 4) s.data).bind fun p =>
    if skipWs p.2 = [] then some p.1 else none

/-! ### `_apply_regex_rules_to_content` (template_handler.py, lines 269–360)

A rule as produced by the template loader: the dict keys `查找` (find),
`替换` (replace) and `action` (already lowercased by the loader).  Python's
`re.sub` is modelled by an oracle `ReSub` supplied as an environment
parameter: `re.sub(pattern, repl, text)` is a pure function of its three
arguments, and `none` models a raised `re.error` (which the source catches,
skipping the rule). -/

structure RegexRule where
  find : String
  replace : String
  action : String
deriving DecidableEq, Repr

abbrev ReSub := String → String → String → Option String

/-- One iteration of the rule loop: the `json_payload` action (parse the
rule's 替换, require a non-null `payload` key, parse the working text —
falling back to an empty object on `JSONDecodeError`, skipping on a
non-dict parse — inject under `tool_code_interpreter_output`, pretty-print),
the `replace` action (`re.sub`, skipped on `re.error`), and the
unknown-action skip.  Every `continue`/`except` path leaves the working
text unchanged. -/
def applyOneRule (reSub : ReSub) (current : String) (rule : RegexRule) : String :=
  if rule.action = "json_payload" then
    match jsonLoads rule.replace with
    | some (JValue.obj pfields) =>
        match JValue.objGet pfields "payload" with
        | none => current
        | some JValue.null => current
        | some payload =>
            match jsonLoads current with
            | some (JValue.obj cfields) =>
                jsonDumpsPretty 0
                  (JValue.obj (JValue.objSet cfields "tool_code_interpreter_output" payload))
            | some _ => current
            | none =>
                jsonDumpsPretty 0 (JValue.obj [("tool_code_interpreter_output", payload)])
    | some _ => current
    | none => current
  else if rule.action = "replace" then
    (reSub rule.find rule.replace current).getD current
  else current

/-- `_apply_regex_rules_to_content(text_content, regex_rules)`: early return
on an empty rule list, otherwise fold the rules left-to-right over the
working text. -/
def applyRegexRulesToContent (reSub : ReSub) (text : String) (rules : List RegexRule) : String :=
  if rules.isEmpty then text
  else rules.foldl (applyOneRule reSub) text

/-! ### `_process_dice_rolls` (template_handler.py, lines 176–219)

`re.sub(r"\x7b\x7broll\s*(\d+)\s*d\s*(\d+)\s*\x7d\x7d", ...)` is embedded as a
left-to-right maximal-munch scanner: for this pattern greedy `\d+` never needs
backtracking (digits, whitespace and the letter `d` are disjoint character
classes), so maximal munch coincides with the regex's leftmost match.  `\s`
and `\d` are modelled over ASCII.  `random.randint(1, Y)` is modelled through
an integer stream `g : Nat → Nat`, clamped into `[1, Y]` as the library
guarantees; calls consume successive stream positions. -/

def isPySpace (c : Char) : Bool :=
  c == ' ' || c == '\t' || c == '\n' || c == '\r' || c == '\x0b' || c == '\x0c'

def skipPySpace : List Char → List Char
  | c :: cs => if isPySpace c then skipPySpace cs else c :: cs
  | [] => []

theorem skipPySpace_length : ∀ l : List Char, (skipPySpace l).length ≤ l.length
  | [] => le_refl _
  | c :: cs => by
      rw [skipPySpace]
      split
      · exact le_trans (skipPySpace_length cs) (Nat.le_succ _)
      · exact le_refl _

theorem takeDigits_snd_length : ∀ l : List Char, (takeDigits l).2.length ≤ l.length
  | [] => le_refl _
  | c :: cs => by
      rw [takeDigits]
      split
      · exact le_trans (takeDigits_snd_length cs) (Nat.le_succ _)
      · exact le_refl _

/-- `random.randint(1, y)`: one draw from the stream at position `i`. -/
def randint1 (g : Nat → Nat) (i : Nat) (y : Nat) : Nat := 1 + g i % y

/-- `sum(random.randint(1, num_sides) for _ in range(num_dice))`. -/
def rollSum (g : Nat → Nat) (i : Nat) (x y : Nat) : Nat :=
  ((List.range x).map fun k => randint1 g (i + k) y).sum

/-- The tail of a dice match, after the literal `\x7b\x7broll`:
`\s*(\d+)\s*d\s*(\d+)\s*\x7d\x7d`.  Returns the two captured numbers and the
remainder of the input. -/
def tryDiceTail (rest : List Char) : Option (Nat × Nat × List Char) :=
  if (takeDigits (skipPySpace rest)).1.isEmpty then none
  else
    match skipPySpace (takeDigits (skipPySpace rest)).2 with
    | 'd' :: r₄ =>
        if (takeDigits (skipPySpace r₄)).1.isEmpty then none
        else
          match skipPySpace (takeDigits (skipPySpace r₄)).2 with
          | '\x7d' :: '\x7d' :: r₈ =>
              some (digitsToNat (takeDigits (skipPySpace rest)).1,
                    digitsToNat (takeDigits (skipPySpace r₄)).1, r₈)
          | _ => none
    | _ => none

theorem tryDiceTail_length {rest : List Char} {x y : Nat} {r : List Char}
    (h : tryDiceTail rest = some (x, y, r)) : r.length ≤ rest.length := by
  unfold tryDiceTail at h
  split at h
  · exact absurd h (by simp)
  · rename_i hne
    split at h
    · rename_i r₄ heq
      split at h
      · exact absurd h (by simp)
      · split at h
        · rename_i r₈ heq₂
          simp only [Option.some.injEq, Prod.mk.injEq] at h
          obtain ⟨-, -, rfl⟩ := h
          have h₁ : r₈.length + 2 = (skipPySpace (takeDigits (skipPySpace r₄)).2).length := by
            rw [heq₂]; simp
          have h₂ := skipPySpace_length (takeDigits (skipPySpace r₄)).2
          have h₃ := takeDigits_snd_length (skipPySpace r₄)
          have h₄ := skipPySpace_length r₄
          have h₅ : r₄.length + 1 = (skipPySpace (takeDigits (skipPySpace rest)).2).length := by
            rw [heq]; simp
          have h₆ := skipPySpace_length (takeDigits (skipPySpace rest)).2
          have h₇ := takeDigits_snd_length (skipPySpace rest)
          have h₈ := skipPySpace_length rest
          omega
        · exact absurd h (by simp)
    · exact absurd h (by simp)

/-- One output segment of the dice scanner: a literal character, a resolved
roll, or the embedded-error replacement for non-positive parameters. -/
inductive DiceSeg where
  | chr (c : Char)
  | dice (x y roll : Nat)
  | invalid (x y : Nat)
deriving DecidableEq, Repr

/-- `re.sub` scan for the dice pattern: leftmost match, advance one character
on failure.  `i` is the position in the random stream. -/
def diceScanAux (g : Nat → Nat) (i : Nat) : List Char → List DiceSeg
  | '\x7b' :: '\x7b' :: 'r' :: 'o' :: 'l' :: 'l' :: rest =>
      match h : tryDiceTail rest with
      | some (x, y, r) =>
          if x = 0 ∨ y = 0 then DiceSeg.invalid x y :: diceScanAux g i r
          else DiceSeg.dice x y (rollSum g i x y) :: diceScanAux g (i + x) r
      | none =>
          DiceSeg.chr '\x7b' :: diceScanAux g i ('\x7b' :: 'r' :: 'o' :: 'l' :: 'l' :: rest)
  | c :: rest => DiceSeg.chr c :: diceScanAux g i rest
  | [] => []
termination_by cs => cs.length
decreasing_by
  · have := tryDiceTail_length h; simp; omega
  · have := tryDiceTail_length h; simp; omega
  · simp
  · simp

/-- Rendering of one dice segment; the `invalid` string is the f-string
`f"\x7b\x7broll \x7bnum_dice\x7dd\x7bnum_sides\x7d - 无效的骰子参数\x7d\x7d"`
of the source (doubled braces denote literal ones there). -/
def renderDiceSeg : DiceSeg → String
  | .chr c => String.singleton c
  | .dice _ _ roll => toString roll
  | .invalid x y => "\x7broll " ++ toString x ++ "d" ++ toString y ++ " - 无效的骰子参数\x7d"

/-- Random-stream positions consumed by a scan (one per die). -/
def diceConsumed (segs : List DiceSeg) : Nat :=
  (segs.map fun s => match s with | .dice x _ _ => x | _ => 0).sum

/-- `_process_dice_rolls(text_content)` on string content. -/
def processDiceRolls (g : Nat → Nat) (i : Nat) (s : String) : String :=
  String.join ((diceScanAux g i s.data).map renderDiceSeg)

/-! ### `_process_random_choices` (template_handler.py, lines 221–267)

`re.sub(r"\x7b\x7brandom::(.*?)\x7d\x7d", ...)`: after the literal
`\x7b\x7brandom::`, the non-greedy `(.*?)` captures up to the first `\x7d\x7d`;
`.` does not match a newline, so a newline before the closing braces makes the
match fail at that position. -/

/-- Capture of `(.*?)\x7d\x7d`: characters up to the first `\x7d\x7d`, failing
on a newline or end of input. -/
def tryRandomTail : List Char → Option (List Char × List Char)
  | [] => none
  | c :: cs =>
      if c = '\x7d' ∧ cs.head? = some '\x7d' then some ([], cs.tail)
      else if c = '\n' then none
      else (tryRandomTail cs).map fun p => (c :: p.1, p.2)

theorem tryRandomTail_length :
    ∀ {l cap r : List Char}, tryRandomTail l = some (cap, r) → r.length < l.length
  | [], cap, r, h => by simp [tryRandomTail] at h
  | c :: cs, cap, r, h => by
      rw [tryRandomTail] at h
      split at h
      · rename_i hc
        simp only [Option.some.injEq, Prod.mk.injEq] at h
        obtain ⟨-, rfl⟩ := h
        have := List.length_tail cs
        simp only [List.length_cons]
        omega
      · split at h
        · exact absurd h (by simp)
        · simp only [Option.map_eq_some'] at h
          obtain ⟨p, hp, heq⟩ := h
          obtain ⟨-, rfl⟩ := Prod.mk.injEq .. ▸ (Prod.ext_iff.mp heq.symm)
          exact lt_trans (tryRandomTail_length hp) (by simp)

/-- One output segment of the random-choice scanner.  The two error markers
are literal strings in the source (not f-strings), hence the doubled braces
in their rendering. -/
inductive RandSeg where
  | chr (c : Char)
  | chosen (s : String)
  | noOptions
  | noValidOptions
deriving DecidableEq, Repr

/-- `replace_random_choice` on the captured option string: empty capture →
error marker; otherwise split on `::`; if some option is empty, filter the
empty ones out (error marker when nothing is left); `random.choice` draws one
index from the stream.  Returns the segment and the next stream position. -/
def replaceRandomChoice (g : Nat → Nat) (i : Nat) (cap : String) : RandSeg × Nat :=
  if cap = "" then (.noOptions, i)
  else
    let options := cap.splitOn "::"
    if options.all (fun o => o ≠ "") then
      (.chosen (options.getD (g i % options.length) ""), i + 1)
    else
      let filtered := options.filter (fun o => o ≠ "")
      if filtered.isEmpty then (.noValidOptions, i)
      else (.chosen (filtered.getD (g i % filtered.length) ""), i + 1)

/-- `re.sub` scan for the random-choice pattern: literal `\x7b\x7brandom::`,
then the non-greedy capture; on failure advance one character. -/
def randomScanAux (g : Nat → Nat) (i : Nat) : List Char → List RandSeg
  | '\x7b' :: '\x7b' :: 'r' :: 'a' :: 'n' :: 'd' :: 'o' :: 'm' :: ':' :: ':' :: rest =>
      match h : tryRandomTail rest with
      | some (cap, r) =>
          (replaceRandomChoice g i (String.mk cap)).1 ::
            randomScanAux g (replaceRandomChoice g i (String.mk cap)).2 r
      | none =>
          RandSeg.chr '\x7b' ::
            randomScanAux g i ('\x7b' :: 'r' :: 'a' :: 'n' :: 'd' :: 'o' :: 'm' :: ':' :: ':' :: rest)
  | c :: rest => RandSeg.chr c :: randomScanAux g i rest
  | [] => []
termination_by cs => cs.length
decreasing_by
  · have := tryRandomTail_length h; simp; omega
  · simp
  · simp

def renderRandSeg : RandSeg → String
  | .chr c => String.singleton c
  | .chosen s => s
  | .noOptions => "\x7b\x7brandom:: - 无选项\x7d\x7d"
  | .noValidOptions => "\x7b\x7brandom:: - 过滤后无有效选项\x7d\x7d"

/-- Random-stream positions consumed by a scan (one per successful choice). -/
def randConsumed (segs : List RandSeg) : Nat :=
  (segs.map fun s => match s with | .chosen _ => 1 | _ => 0).sum

/-- `_process_random_choices(text_content)` on string content. -/
def processRandomChoices (g : Nat → Nat) (i : Nat) (s : String) : String :=
  String.join ((randomScanAux g i s.data).map renderRandSeg)

/-- Step 5 of `_prepare_openai_messages` on one string: dice first, then
random choices, threading the stream position. -/
def expandText (g : Nat → Nat) (i : Nat) (s : String) : String × Nat :=
  let dsegs := diceScanAux g i s.data
  let s₁ := String.join (dsegs.map renderDiceSeg)
  let i₁ := i + diceConsumed dsegs
  let rsegs := randomScanAux g i₁ s₁.data
  (String.join (rsegs.map renderRandSeg), i₁ + randConsumed rsegs)

/-! ### Message data model

A message is a Python dict with `role` and `content` keys.  `Content.null`
covers both an absent `content` key and an explicit `None` (every consumer in
the source reads the key with a falsy default or checks `is not None`, so the
two are observationally identical there).  `Content.other` is any non-string,
non-list content (e.g. a number), opaque except for its Python truthiness,
which step 4 of the preparer consults. -/

inductive ContentPart where
  | text (s : String)
  | other (blob : String)
deriving DecidableEq, Repr

inductive Content where
  | null
  | str (s : String)
  | parts (l : List ContentPart)
  | other (blob : String) (truthy : Bool)
deriving DecidableEq, Repr

/-- Python truthiness of a content value. -/
def Content.truthiness : Content → Bool
  | .null => false
  | .str s => s ≠ ""
  | .parts l => !l.isEmpty
  | .other _ t => t

/-- `isinstance(content, str)` — the merge step's mergeability test. -/
def Content.isStr : Content → Bool
  | .str _ => true
  | _ => false

structure Msg where
  role : Option String
  content : Content
deriving DecidableEq, Repr

/-- A prompt-blueprint entry: a template-file dict with optional `type`,
`role` and `content` keys. -/
structure Blueprint where
  type? : Option String
  role : Option String
  content : Content
deriving DecidableEq, Repr

/-! ### `_load_templates` (template_handler.py, lines 50–170)

The per-path slice of the three module-level caches.  `mtime = 0` is the
source's sentinel for "never successfully loaded" (`_LAST_TEMPLATE_MTIME`
defaults to `0.0` and is reset to `0.0` on file-not-found); modification
times are modelled as naturals.  `loggedNotFound` models membership of the
path in `_load_templates._logged_not_found_paths`. -/

structure TemplateCache where
  blueprints : List Blueprint
  rules : List RegexRule
  mtime : Nat
  loggedNotFound : Bool
deriving DecidableEq, Repr

/-- One top-level YAML list item.  For a dict item, `find`/`replace` are
`item.get("查找")`/`item.get("替换")` (`none` = key absent or value null,
otherwise the `str()`-coerced text), and `action` is `item.get("action")`
likewise; the classifier applies the `"replace"` default and `.lower()`. -/
inductive YItem where
  | nonDict (blob : String)
  | dict (bp : Blueprint) (find : Option String) (replace : Option String) (action : Option String)
deriving DecidableEq, Repr

/-- What `yaml.safe_load` produced. -/
inductive YamlDoc where
  | notList (blob : String)
  | list (items : List YItem)
deriving DecidableEq, Repr

/-- Observable state of the template file during one loader call. -/
inductive FileState where
  | missing
  | parseFailure (mtime : Nat)
  | parsed (mtime : Nat) (doc : YamlDoc)
deriving DecidableEq, Repr

/-- The item loop of `_load_templates`: non-dict items are dropped; a dict of
type `正则` with both 查找 and 替换 present becomes a rule (action defaulted
to `replace` and lowercased); every other dict is a blueprint, in order. -/
def classifyItems : List YItem → List Blueprint × List RegexRule
  | [] => ([], [])
  | YItem.nonDict _ :: rest => classifyItems rest
  | YItem.dict bp find repl action :: rest =>
      let acc := classifyItems rest
      if bp.type? = some "正则" then
        match find, repl with
        | some f, some r =>
            (acc.1, { find := f, replace := r, action := (action.getD "replace").toLower } :: acc.2)
        | _, _ => acc
      else (bp :: acc.1, acc.2)

/-- `_load_templates(template_path, force_reload)` as a transition on the
per-path cache, given the file state observed during the call.  Total by
construction: the source catches `FileNotFoundError`, `yaml.YAMLError` and
`Exception`, so no branch raises to the caller. -/
def loadTemplates (st : TemplateCache) (forceReload : Bool) (fs : FileState) : TemplateCache :=
  match fs with
  | .missing => { blueprints := [], rules := [], mtime := 0, loggedNotFound := true }
  | .parseFailure m =>
      if ¬forceReload ∧ m = st.mtime ∧ st.mtime ≠ 0 then st
      else if st.mtime = 0 then { st with blueprints := [], rules := [] }
      else st
  | .parsed m doc =>
      if ¬forceReload ∧ m = st.mtime ∧ st.mtime ≠ 0 then st
      else
        match doc with
        | .list items =>
            { blueprints := (classifyItems items).1, rules := (classifyItems items).2,
              mtime := m, loggedNotFound := false }
        | .notList _ =>
            if st.mtime = 0 then
              { st with blueprints := [], rules := [], loggedNotFound := false }
            else { st with loggedNotFound := false }

/-! ### `_prepare_openai_messages` (template_handler.py, lines 362–599)

The request body carries the `model` value (`none` = key absent) and the
message list (`messages` absent or not a list collapses to `[]`, as in the
source).  The two template paths' cached blueprints and rules are passed in
explicitly (they are the module-level caches keyed by the two configured
paths); `g` is the random stream. -/

structure RequestBody where
  model : Option JValue
  messages : List Msg
deriving DecidableEq, Repr

structure PreparedRequest where
  model : Option JValue
  messages : List Msg
  selectedRegexRules : List RegexRule
deriving DecidableEq, Repr

/-- `"\x7b\x7buser_input\x7d\x7d" in s` — substring containment. -/
def listContainsSub (pat : List Char) : List Char → Bool
  | [] => pat.isEmpty
  | c :: rest => pat.isPrefixOf (c :: rest) || listContainsSub pat rest

def userInputMarker : String := "\x7b\x7buser_input\x7d\x7d"

def hasUserInputMarker (s : String) : Bool := listContainsSub userInputMarker.data s.data

/-- `s.split(pat, 1)`: the text before and after the first occurrence of
`pat`, or `none` when `pat` does not occur. -/
def splitFirstAux (pat : List Char) (acc : List Char) : List Char → Option (List Char × List Char)
  | [] => none
  | c :: rest =>
      if pat.isPrefixOf (c :: rest) then some (acc.reverse, (c :: rest).drop pat.length)
      else splitFirstAux pat (c :: acc) rest

def splitFirst (s pat : String) : Option (String × String) :=
  (splitFirstAux pat.data [] s.data).map fun p => (String.mk p.1, String.mk p.2)

/-- Step 2: the text used for template selection and non-splice substitution
— a string content itself, the first text-typed part of structured content,
`""` otherwise. -/
def firstTextPart : List ContentPart → String
  | [] => ""
  | .text s :: _ => s
  | .other _ :: rest => firstTextPart rest

def lastUserTextOf : Content → String
  | .parts l => firstTextPart l
  | .str s => s
  | _ => ""

/-- Step 3's condition `user_input_content and user_input_content.strip()`:
false exactly when every character is whitespace (or the string is empty). -/
def stripIsEmpty (s : String) : Bool := s.data.all isPySpace

/-- The content a non-placeholder blueprint contributes: marker splicing for
a user-role blueprint (structured input spliced between the text fragments,
string input substituted literally, empty substitution otherwise), the
extracted-text substitution for every other string template, pass-through
for non-string content. -/
def blueprintContent (lastUserInput : Content) (lastText : String) (bp : Blueprint) : Content :=
  match bp.content with
  | .str ct =>
      if bp.role = some "user" ∧ hasUserInputMarker ct then
        match lastUserInput with
        | .parts l =>
            match splitFirst ct userInputMarker with
            | some (pre, post) =>
                .parts ((if pre ≠ "" then [ContentPart.text pre] else []) ++ l ++
                        (if post ≠ "" then [ContentPart.text post] else []))
            | none => .str ct
        | .str s => .str (ct.replace userInputMarker s)
        | _ => .str (ct.replace userInputMarker "")
      else .str (ct.replace userInputMarker lastText)
  | c => c

def processBlueprints (historic : List Msg) (lastUserInput : Content) (lastText : String) :
    List Blueprint → List Msg
  | [] => []
  | bp :: rest =>
      if bp.type? = some "api_input_placeholder" then
        historic ++ processBlueprints historic lastUserInput lastText rest
      else
        { role := bp.role, content := blueprintContent lastUserInput lastText bp } ::
          processBlueprints historic lastUserInput lastText rest

/-- Step 5 on one content value: expand dice then random choices in string
content and in each text-typed part of structured content, threading the
random stream position. -/
def expandParts (g : Nat → Nat) (i : Nat) : List ContentPart → List ContentPart × Nat
  | [] => ([], i)
  | ContentPart.text s :: rest =>
      let e := expandText g i s
      let r := expandParts g e.2 rest
      (ContentPart.text e.1 :: r.1, r.2)
  | p :: rest =>
      let r := expandParts g i rest
      (p :: r.1, r.2)

def expandContent (g : Nat → Nat) (i : Nat) : Content → Content × Nat
  | .str s => let e := expandText g i s; (.str e.1, e.2)
  | .parts l => let e := expandParts g i l; (.parts e.1, e.2)
  | c => (c, i)

def expandMessages (g : Nat → Nat) (i : Nat) : List Msg → List Msg × Nat
  | [] => ([], i)
  | m :: rest =>
      let e := expandContent g i m.content
      let r := expandMessages g e.2 rest
      ({ m with content := e.1 } :: r.1, r.2)

/-- Step 6: drop messages whose content is `None`, the empty string, or an
empty list; any other content is kept. -/
def keepMessage (m : Msg) : Bool :=
  match m.content with
  | .null => false
  | .str s => s ≠ ""
  | .parts l => !l.isEmpty
  | .other _ _ => true

/-- Step 7's loop body: merge `next` into the accumulating message when the
roles coincide and both contents are plain strings (joined by a newline);
otherwise flush and start a new segment. -/
def mergeLoop (current : Msg) : List Msg → List Msg
  | [] => [current]
  | next :: rest =>
      match current.content, next.content with
      | .str a, .str b =>
          if next.role = current.role then
            mergeLoop { current with content := .str (a ++ "\n" ++ b) } rest
          else current :: mergeLoop next rest
      | _, _ => current :: mergeLoop next rest

def mergeMessages : List Msg → List Msg
  | [] => []
  | m :: rest => mergeLoop m rest

/-- Step 1: whether the last original message has the user role. -/
def lastIsUser (body : RequestBody) : Bool :=
  match body.messages.getLast? with
  | some m => m.role = some "user"
  | none => false

/-- Step 1: `last_user_input_content_for_processing` — the trailing user
message's content, or the initial `""` when there is none. -/
def lastUserInput (body : RequestBody) : Content :=
  match body.messages.getLast? with
  | some m => if m.role = some "user" then m.content else .str ""
  | none => .str ""

/-- Step 1: `historic_messages`. -/
def historicMessages (body : RequestBody) : List Msg :=
  if lastIsUser body then body.messages.dropLast else body.messages

/-- Step 3: `_get_template_path_for_user_input` selects the with-input
template exactly when the extracted user text has a non-whitespace
character. -/
def selectWithInput (body : RequestBody) : Bool :=
  ¬ stripIsEmpty (lastUserTextOf (lastUserInput body))

/-- Step 4: the message list before dynamic-variable expansion. -/
def prepareProcessed (bpWith bpWithout : List Blueprint) (body : RequestBody) : List Msg :=
  let originalMessages := body.messages
  let lastText := lastUserTextOf (lastUserInput body)
  let currentBlueprints := if selectWithInput body then bpWith else bpWithout
  if currentBlueprints.isEmpty then
    let base :=
      if (lastUserInput body).truthiness then
        historicMessages body ++ [{ role := some "user", content := lastUserInput body }]
      else if (historicMessages body).isEmpty ∧ lastIsUser body then
        match originalMessages.getLast? with
        | some m => historicMessages body ++ [m]
        | none => historicMessages body
      else historicMessages body
    if base.isEmpty ∧ ¬originalMessages.isEmpty then originalMessages else base
  else
    let fromBps := processBlueprints (historicMessages body) (lastUserInput body) lastText
      currentBlueprints
    let handled := currentBlueprints.any fun bp =>
      bp.role = some "user" &&
        (match bp.content with | .str s => hasUserInputMarker s | _ => false)
    if ¬handled ∧ (lastUserInput body).truthiness then
      fromBps ++ [{ role := some "user", content := lastUserInput body }]
    else fromBps

/-- Steps 1–5: the message list after dynamic-variable expansion. -/
def prepareExpanded (bpWith bpWithout : List Blueprint) (g : Nat → Nat)
    (body : RequestBody) : List Msg :=
  (expandMessages g 0 (prepareProcessed bpWith bpWithout body)).1

/-- `_prepare_openai_messages(original_body)`: steps 1–5, then the empty-
content filter (step 6), the adjacent same-role merge (step 7), and the
result dict. -/
def prepareOpenaiMessages (bpWith bpWithout : List Blueprint)
    (rulesWith rulesWithout : List RegexRule) (g : Nat → Nat)
    (body : RequestBody) : PreparedRequest :=
  { model := body.model,
    messages := mergeMessages ((prepareExpanded bpWith bpWithout g body).filter keepMessage),
    selectedRegexRules := if selectWithInput body then rulesWith else rulesWithout }

/-! ### Object-identity view of `_prepare_openai_messages`

To settle the frame/aliasing property (the preparer mutates no input message
and returns only freshly allocated message objects), the same pipeline is
embedded once more over an explicit object store: message dicts live at
addresses (indices into the store), `copy.deepcopy` allocates a fresh
address, dict-entry assignment updates the addressed cell in place, and the
function's result is a list of addresses.  Content values stay by-value:
the claim is at message-object granularity. -/

abbrev Store := List Msg

def readAddr (st : Store) (a : Nat) : Msg := st.getD a { role := none, content := .null }

def setAddr (st : Store) (a : Nat) (m : Msg) : Store := st.set a m

/-- `copy.deepcopy` of a message list: one fresh cell per message, in order. -/
def allocCopies (st : Store) : List Msg → Store × List Nat
  | [] => (st, [])
  | m :: rest =>
      let r := allocCopies (st ++ [m]) rest
      (r.1, st.length :: r.2)

/-- One non-placeholder blueprint: `copy.deepcopy(blueprint_msg_template)`
allocates a cell with the template payload, and the
`blueprint_msg["content"] = …` assignment (taken exactly when the template
content is a string) updates that fresh cell in place. -/
def blueprintAlloc (lui : Content) (lastText : String) (st : Store) (bp : Blueprint) : Store :=
  match bp.content with
  | .str _ =>
      setAddr (st ++ [{ role := bp.role, content := bp.content }]) st.length
        { role := bp.role, content := blueprintContent lui lastText bp }
  | _ => st ++ [{ role := bp.role, content := bp.content }]

/-- The blueprint loop with allocation. -/
def processBlueprintsAddr (historicVals : List Msg) (lui : Content) (lastText : String) :
    Store → List Blueprint → Store × List Nat
  | st, [] => (st, [])
  | st, bp :: rest =>
      if bp.type? = some "api_input_placeholder" then
        let c := allocCopies st historicVals
        let r := processBlueprintsAddr historicVals lui lastText c.1 rest
        (r.1, c.2 ++ r.2)
      else
        let r := processBlueprintsAddr historicVals lui lastText
          (blueprintAlloc lui lastText st bp) rest
        (r.1, st.length :: r.2)

/-- One step-5 message: `new_msg = copy.deepcopy(msg)` allocates, and
`new_msg["content"] = …` (string and list branches only) updates the fresh
cell in place. -/
def expandAlloc (st : Store) (m : Msg) (c : Content) : Store :=
  match m.content with
  | .str _ => setAddr (st ++ [m]) st.length { m with content := c }
  | .parts _ => setAddr (st ++ [m]) st.length { m with content := c }
  | _ => st ++ [m]

/-- Step 5 with allocation. -/
def expandAddrs (g : Nat → Nat) : Store → Nat → List Nat → Store × List Nat × Nat
  | st, i, [] => (st, [], i)
  | st, i, a :: rest =>
      let m := readAddr st a
      let e := expandContent g i m.content
      let r := expandAddrs g (expandAlloc st m e.1) e.2 rest
      (r.1, st.length :: r.2.1, r.2.2)

/-- Step 7 with allocation: the accumulating message is a deepcopy; merging
assigns to it in place; a flush emits its address and deep-copies the next
message. -/
def mergeLoopAddr : Store → Nat → List Nat → Store × List Nat
  | st, cur, [] => (st, [cur])
  | st, cur, na :: rest =>
      let curM := readAddr st cur
      let nextM := readAddr st na
      match curM.content, nextM.content with
      | .str a, .str b =>
          if nextM.role = curM.role then
            mergeLoopAddr (setAddr st cur { curM with content := .str (a ++ "\n" ++ b) }) cur rest
          else
            let r := mergeLoopAddr (st ++ [nextM]) st.length rest
            (r.1, cur :: r.2)
      | _, _ =>
          let r := mergeLoopAddr (st ++ [nextM]) st.length rest
          (r.1, cur :: r.2)

def mergeMessagesAddr (st : Store) : List Nat → Store × List Nat
  | [] => (st, [])
  | a :: rest => mergeLoopAddr (st ++ [readAddr st a]) st.length rest

/-- `StoreExt s₀ s`: `s` extends `s₀` — every pre-existing cell is intact.
The frame property of the preparer is stated through it. -/
def StoreExt (s₀ s : Store) : Prop :=
  s₀.length ≤ s.length ∧ ∀ i, i < s₀.length → s.get? i = s₀.get? i

/-- Step 4 over the store, no-blueprint branch (lines 429–446): deep-copy
the historic messages, allocate the trailing user message when one applies,
and fall back to a deep copy of the whole original list when nothing was
produced. -/
def prepareAddrNoBp (st : Store) (body : RequestBody) : Store × List Nat :=
  let c := allocCopies st (historicMessages body)
  let withUser : Store × List Nat :=
    if (lastUserInput body).truthiness then
      (c.1 ++ [{ role := some "user", content := lastUserInput body }], c.2 ++ [c.1.length])
    else if (historicMessages body).isEmpty ∧ lastIsUser body then
      match body.messages.getLast? with
      | some m => (c.1 ++ [m], c.2 ++ [c.1.length])
      | none => c
    else c
  if withUser.2.isEmpty ∧ ¬body.messages.isEmpty then
    allocCopies withUser.1 body.messages
  else withUser

/-- Step 4 over the store, blueprint branch (lines 447–514). -/
def prepareAddrBp (st : Store) (body : RequestBody)
    (currentBlueprints : List Blueprint) : Store × List Nat :=
  let fromBps := processBlueprintsAddr (historicMessages body) (lastUserInput body)
    (lastUserTextOf (lastUserInput body)) st currentBlueprints
  let handled := currentBlueprints.any fun bp =>
    bp.role = some "user" &&
      (match bp.content with | .str s => hasUserInputMarker s | _ => false)
  if ¬handled ∧ (lastUserInput body).truthiness then
    (fromBps.1 ++ [{ role := some "user", content := lastUserInput body }],
     fromBps.2 ++ [fromBps.1.length])
  else fromBps

/-- Step 4 over the store (both branches of the blueprint dispatch). -/
def prepareAddrStep4 (bpWith bpWithout : List Blueprint)
    (st : Store) (msgAddrs : List Nat) : Store × List Nat :=
  let body : RequestBody := { model := none, messages := msgAddrs.map (readAddr st) }
  let currentBlueprints := if selectWithInput body then bpWith else bpWithout
  if currentBlueprints.isEmpty then prepareAddrNoBp st body
  else prepareAddrBp st body currentBlueprints

/-- `_prepare_openai_messages` over the store: steps 4, 5, the filter, and
the merge, returning the final store and the returned message addresses. -/
def prepareAddr (bpWith bpWithout : List Blueprint) (g : Nat → Nat)
    (st : Store) (msgAddrs : List Nat) : Store × List Nat :=
  let step4 := prepareAddrStep4 bpWith bpWithout st msgAddrs
  let step5 := expandAddrs g step4.1 0 step4.2
  let filtered := step5.2.1.filter fun a => keepMessage (readAddr step5.1 a)
  mergeMessagesAddr step5.1 filtered

/-! ### `fake_stream_generator_from_non_stream` (streaming_utils.py, lines 25–264)

The generator is embedded as the deterministic frame sequence it yields,
indexed by the run's scheduling observations: how many heartbeat timeouts
elapsed, and whether the wrapped task delivered a value, captured an
exception, or the generator itself was cancelled during the heartbeat loop.
`clock k` is `int(time.time())` at the `k`-th heartbeat; `now` at the
decomposition defaults.  Frames are rendered to the yielded SSE strings by
`renderFrame`.  A `regex_rules` of Python `None` behaves as `[]` (both are
falsy in `_apply_regex_rules_to_content`), so the rules are a plain list. -/

/-- The exception captured from the wrapped task, classified as lines
139–147 classify it. -/
inductive TaskExc where
  | http (statusCode : Int) (detail : String)
  | cancelled
  | other (msg : String)
deriving DecidableEq, Repr

/-- Outcome of `_execute_and_signal_completion`: a result value (a Python
`None` result leaves `_wrapped_task_result is None`, taking the
unknown-state branch) or a captured exception. -/
inductive TaskResult where
  | value (v : JValue)
  | exc (e : TaskExc)
deriving DecidableEq, Repr

/-- One run of the generator: the task completed after `heartbeats`
timeouts, or the generator was cancelled in the heartbeat loop after
emitting `heartbeats` heartbeat frames. -/
inductive RunMode where
  | toCompletion (heartbeats : Nat) (r : TaskResult)
  | cancelledInLoop (heartbeats : Nat)
deriving DecidableEq, Repr

inductive Frame where
  | heartbeat (ts : Int) (model : JValue)
  | errorFrame (payload : JValue)
  | roleChunk (id created model role : JValue)
  | contentChunk (id created model content : JValue)
  | finishChunk (id created model finish : JValue)
  | rawData (v : JValue)
  | done
deriving DecidableEq, Repr

/-- The heartbeat chunk dict (lines 112–118). -/
def heartbeatChunk (ts : Int) (model : JValue) : JValue :=
  .obj [("id", .str ("chatcmpl-fake-hb-" ++ toString ts)),
        ("object", .str "chat.completion.chunk"),
        ("created", .num ts),
        ("model", model),
        ("choices", .arr [.obj [("index", .num 0), ("delta", .obj [("content", .str "")]),
                                ("finish_reason", .null)]])]

/-- A decomposition chunk dict (lines 184–206): role, content and finish
chunks differ only in the delta fields and finish_reason. -/
def deltaChunk (id created model : JValue) (delta : List (String × JValue)) (finish : JValue) :
    JValue :=
  .obj [("id", id), ("object", .str "chat.completion.chunk"), ("created", created),
        ("model", model),
        ("choices", .arr [.obj [("index", .num 0), ("delta", .obj delta),
                                ("finish_reason", finish)]])]

def httpErrorPayload (code : Int) (detail : String) : JValue :=
  .obj [("error", .obj [("message", .str detail), ("code", .num code),
                        ("type", .str "api_error_in_fake_stream")])]

def cancelledErrorPayload : JValue :=
  .obj [("error", .obj [("message", .str "请求在服务器端被取消 (模拟流)。"),
                        ("type", .str "server_request_cancelled_in_fake_stream")])]

def internalErrorPayload (msg : String) : JValue :=
  .obj [("error", .obj [("message", .str ("非流式任务执行期间发生内部错误: " ++ msg)),
                        ("type", .str "internal_task_error_in_fake_stream")])]

def unknownStatePayload : JValue :=
  .obj [("error", .obj [("message", .str "非流式任务以未知状态完成。"),
                        ("type", .str "unknown_task_completion_state")])]

def genErrorPayload (msg : String) : JValue :=
  .obj [("error", .obj [("message", .str ("模拟流生成器发生意外错误: " ++ msg)),
                        ("type", .str "fake_stream_generator_unexpected_error")])]

/-- Stand-in for `str(e_outer)` of the `AttributeError`/`TypeError`/`KeyError`
raised at lines 158/174–175 when a truthy `choices` is not a list, its first
element is not a dict, or a present `message` value is not a dict; the exact
library text is opaque to every property below. -/
def malformedShapeMsg : String := "malformed chat.completion structure"

/-- Lines 182–188: `if role:` — a role chunk when the role value is truthy. -/
def roleFramesOf (respId respCreated respModel : JValue)
    (mf : List (String × JValue)) : List Frame :=
  match JValue.objGet mf "role" with
  | some r => if r.truthy then [Frame.roleChunk respId respCreated respModel r] else []
  | none => []

/-- Lines 190–197: `if content is not None:` — a content chunk for any
non-`None` content, the empty string included. -/
def contentFramesOf (respId respCreated respModel : JValue)
    (mf : List (String × JValue)) : List Frame :=
  match JValue.objGet mf "content" with
  | some c => if c = .null then [] else [Frame.contentChunk respId respCreated respModel c]
  | none => []

/-- Lines 199–206: `if finish_reason:` — a finish chunk when truthy. -/
def finishFramesOf (respId respCreated respModel : JValue)
    (c0f : List (String × JValue)) : List Frame :=
  match JValue.objGet c0f "finish_reason" with
  | some f => if f.truthy then [Frame.finishChunk respId respCreated respModel f] else []
  | none => []

/-- Success processing (lines 151–223): regex post-processing of an
assistant message's string content, then decomposition into role/content/
finish chunks; the shape-mismatch branch yields the raw result as one data
frame; a malformed-but-truthy `choices` raises and is caught at line 243,
yielding one generator-error frame. -/
def successFrames (reSub : ReSub) (rules : List RegexRule) (bodyModel : Option JValue)
    (now : Int) (v : JValue) : List Frame :=
  match v with
  | .obj fields =>
      match JValue.objGet fields "choices" with
      | some cv =>
          if cv.truthy then
            match cv with
            | .arr (JValue.obj c0f :: restc) =>
                match (JValue.objGet c0f "message").getD (.obj []) with
                | .obj mf =>
                    -- regex block (lines 157–168): only an assistant role
                    -- with string content is rewritten, and only when the
                    -- rules change it
                    let contentUpdate : Option String :=
                      if JValue.objGet mf "role" = some (.str "assistant") then
                        match (JValue.objGet mf "content").getD (.str "") with
                        | .str s =>
                            let p := applyRegexRulesToContent reSub s rules
                            if p ≠ s then some p else none
                        | _ => none
                      else none
                    let mf₂ := match contentUpdate with
                      | some p => JValue.objSet mf "content" (.str p)
                      | none => mf
                    let c0f₂ := match contentUpdate with
                      | some _ => JValue.objSet c0f "message" (.obj mf₂)
                      | none => c0f
                    let fields₂ := match contentUpdate with
                      | some _ => JValue.objSet fields "choices" (.arr (.obj c0f₂ :: restc))
                      | none => fields
                    -- decomposition (lines 173–206)
                    let respId := (JValue.objGet fields₂ "id").getD
                      (.str ("chatcmpl-simulated-" ++ toString now))
                    let respModel := (JValue.objGet fields₂ "model").getD
                      (bodyModel.getD (.str "gpt-3.5-turbo-proxy"))
                    let respCreated := (JValue.objGet fields₂ "created").getD (.num now)
                    roleFramesOf respId respCreated respModel mf₂ ++
                      contentFramesOf respId respCreated respModel mf₂ ++
                      finishFramesOf respId respCreated respModel c0f₂
                | _ => [.errorFrame (genErrorPayload malformedShapeMsg)]
            | _ => [.errorFrame (genErrorPayload malformedShapeMsg)]
          else [.rawData v]
      | none => [.rawData v]
  | _ => [.rawData v]

/-- Lines 136–228: the branch taken once the completion event fires. -/
def completionFrames (reSub : ReSub) (rules : List RegexRule) (bodyModel : Option JValue)
    (now : Int) : TaskResult → List Frame
  | .exc (.http code detail) => [.errorFrame (httpErrorPayload code detail)]
  | .exc .cancelled => [.errorFrame cancelledErrorPayload]
  | .exc (.other msg) => [.errorFrame (internalErrorPayload msg)]
  | .value .null => [.errorFrame unknownStatePayload]
  | .value v => successFrames reSub rules bodyModel now v

/-- `original_body.get("model", "gpt-3.5-turbo-proxy-heartbeat")`. -/
def heartbeatModelOf (bodyModel : Option JValue) : JValue :=
  bodyModel.getD (.str "gpt-3.5-turbo-proxy-heartbeat")

def heartbeatFrames (clock : Nat → Int) (bodyModel : Option JValue) (n : Nat) : List Frame :=
  (List.range n).map fun k => Frame.heartbeat (clock k) (heartbeatModelOf bodyModel)

/-- The full frame sequence of one generator run.  The `[DONE]` sentinel is
yielded from the `finally` block (lines 248–264), so it closes the sequence
on the completion paths and on generator cancellation alike. -/
def fakeStreamFrames (reSub : ReSub) (rules : List RegexRule) (bodyModel : Option JValue)
    (clock : Nat → Int) (now : Int) : RunMode → List Frame
  | .toCompletion hb r =>
      heartbeatFrames clock bodyModel hb ++
        completionFrames reSub rules bodyModel now r ++ [.done]
  | .cancelledInLoop hb => heartbeatFrames clock bodyModel hb ++ [.done]

/-- The yielded SSE string of each frame. -/
def renderFrame : Frame → String
  | .heartbeat ts model => "data: " ++ jsonDumps true (heartbeatChunk ts model) ++ "\n\n"
  | .errorFrame p => "data: " ++ jsonDumps true p ++ "\n\n"
  | .roleChunk id cr mo r =>
      "data: " ++ jsonDumps true (deltaChunk id cr mo [("role", r)] .null) ++ "\n\n"
  | .contentChunk id cr mo c =>
      "data: " ++ jsonDumps true (deltaChunk id cr mo [("content", c)] .null) ++ "\n\n"
  | .finishChunk id cr mo f =>
      "data: " ++ jsonDumps true (deltaChunk id cr mo [] f) ++ "\n\n"
  | .rawData v => "data: " ++ jsonDumps true v ++ "\n\n"
  | .done => "data: [DONE]\n\n"

/-- The role/content/finish decomposition frames ("delta" frames). -/
def Frame.isDelta : Frame → Bool
  | .roleChunk .. => true
  | .contentChunk .. => true
  | .finishChunk .. => true
  | _ => false

def Frame.isError : Frame → Bool
  | .errorFrame _ => true
  | _ => false

/-! ## Verification -/

/-! ### Dice bounds (C8) -/

theorem randint1_bounds (g : Nat → Nat) (i y : Nat) (hy : 0 < y) :
    1 ≤ randint1 g i y ∧ randint1 g i y ≤ y := by
  unfold randint1
  have := Nat.mod_lt (g i) hy
  omega

theorem rollSum_bounds (g : Nat → Nat) (j x y : Nat) (hy : 0 < y) :
    x ≤ rollSum g j x y ∧ rollSum g j x y ≤ x * y := by
  induction x with
  | zero => simp [rollSum]
  | succ k ih =>
      have hstep : rollSum g j (k + 1) y = rollSum g j k y + randint1 g (j + k) y := by
        simp [rollSum, List.range_succ]
      have hr := randint1_bounds g (j + k) y hy
      have hmul : (k + 1) * y = k * y + y := by ring
      omega

/-- Step equation of the scanner at a successful match. -/
theorem diceScanAux_match_some {rest : List Char} {x y : Nat} {r : List Char}
    (g : Nat → Nat) (i : Nat) (h : tryDiceTail rest = some (x, y, r)) :
    diceScanAux g i ('\x7b' :: '\x7b' :: 'r' :: 'o' :: 'l' :: 'l' :: rest) =
      if x = 0 ∨ y = 0 then DiceSeg.invalid x y :: diceScanAux g i r
      else DiceSeg.dice x y (rollSum g i x y) :: diceScanAux g (i + x) r := by
  rw [diceScanAux.eq_1]
  split
  · rename_i x₂ y₂ r₂ h₂
    rw [h] at h₂
    cases h₂
    rfl
  · rename_i h₂
    rw [h] at h₂
    cases h₂

/-- Step equation of the scanner at a failed match after `\x7b\x7broll`. -/
theorem diceScanAux_match_none {rest : List Char} (g : Nat → Nat) (i : Nat)
    (h : tryDiceTail rest = none) :
    diceScanAux g i ('\x7b' :: '\x7b' :: 'r' :: 'o' :: 'l' :: 'l' :: rest) =
      DiceSeg.chr '\x7b' :: diceScanAux g i ('\x7b' :: 'r' :: 'o' :: 'l' :: 'l' :: rest) := by
  rw [diceScanAux.eq_1]
  split
  · rename_i h₂
    rw [h] at h₂
    cases h₂
  · rfl

/-- Every `dice` segment the scanner emits has positive parameters and a
roll drawn by `rollSum` at some stream position. -/
theorem diceScan_dice_mem (g : Nat → Nat) :
    ∀ (i : Nat) (s : List Char) (x y n : Nat), DiceSeg.dice x y n ∈ diceScanAux g i s →
      0 < x ∧ 0 < y ∧ ∃ j, n = rollSum g j x y := by
  intro i s
  induction i, s using diceScanAux.induct g with
  | case1 i rest x' y' r hsome hz ih =>
      intro x y n hmem
      rw [diceScanAux_match_some g i hsome, if_pos hz] at hmem
      rcases List.mem_cons.mp hmem with h | h
      · exact absurd h (by simp)
      · exact ih x y n h
  | case2 i rest x' y' r hsome hz ih =>
      intro x y n hmem
      rw [diceScanAux_match_some g i hsome, if_neg hz] at hmem
      rcases List.mem_cons.mp hmem with h | h
      · obtain ⟨rfl, rfl, rfl⟩ := by simpa using h
        exact ⟨by omega, by omega, i, rfl⟩
      · exact ih x y n h
  | case3 i rest hnone ih =>
      intro x y n hmem
      rw [diceScanAux_match_none g i hnone] at hmem
      rcases List.mem_cons.mp hmem with h | h
      · exact absurd h (by simp)
      · exact ih x y n h
  | case4 i c rest hnotroll ih =>
      intro x y n hmem
      rw [diceScanAux.eq_2 g i c rest hnotroll] at hmem
      rcases List.mem_cons.mp hmem with h | h
      · exact absurd h (by simp)
      · exact ih x y n h
  | case5 i =>
      intro x y n hmem
      rw [diceScanAux.eq_3] at hmem
      exact absurd hmem (by simp)

/-- C8: for every dice expression `\x7b\x7broll XdY\x7d\x7d` with X ∈ [1,5]
and Y ∈ [2,20] occurring in a string, `_process_dice_rolls` replaces that
occurrence with the decimal representation of an integer n with
X ≤ n ≤ X·Y (the sum of X uniform draws from [1, Y]). -/
theorem dice_expansion_in_range (s : List Char) (g : Nat → Nat) (i x y n : Nat)
    (hx1 : 1 ≤ x) (hx5 : x ≤ 5) (hy2 : 2 ≤ y) (hy20 : y ≤ 20)
    (hmem : DiceSeg.dice x y n ∈ diceScanAux g i s) :
    x ≤ n ∧ n ≤ x * y ∧ renderDiceSeg (DiceSeg.dice x y n) = toString n := by
  obtain ⟨-, hy, j, rfl⟩ := diceScan_dice_mem g i s x y n hmem
  obtain ⟨h₁, h₂⟩ := rollSum_bounds g j x y hy
  exact ⟨h₁, h₂, rfl⟩

theorem dice_expansion_in_range_witness :
    (DiceSeg.dice 2 6 2 ∈ diceScanAux (fun _ => 0) 0 "\x7b\x7broll 2d6\x7d\x7d".data) ∧
    (2 ≤ 2 ∧ 2 ≤ 2 * 6 ∧ renderDiceSeg (DiceSeg.dice 2 6 2) = toString 2) := by
  have hscan : diceScanAux (fun _ => 0) 0 "\x7b\x7broll 2d6\x7d\x7d".data
      = [DiceSeg.dice 2 6 2] := by
    have h : tryDiceTail " 2d6\x7d\x7d".data = some (2, 6, []) := by decide
    rw [show ("\x7b\x7broll 2d6\x7d\x7d".data)
          = '\x7b' :: '\x7b' :: 'r' :: 'o' :: 'l' :: 'l' :: (" 2d6\x7d\x7d".data) from rfl]
    rw [diceScanAux_match_some _ _ h]
    simp [diceScanAux, rollSum, randint1]
  have hmem : DiceSeg.dice 2 6 2 ∈ diceScanAux (fun _ => 0) 0 "\x7b\x7broll 2d6\x7d\x7d".data := by
    rw [hscan]; exact List.mem_singleton.mpr rfl
  exact ⟨hmem, dice_expansion_in_range _ (fun _ => 0) 0 2 6 2 (by decide) (by decide)
    (by decide) (by decide) hmem⟩

/-! ### Regex rule chain associativity (C9) -/

/-- C9: regex rule application is associative over the rule list — applying
`[r1, r2]` to a text equals applying `[r1]` and then `[r2]` as an
independent call, for every `re.sub` behaviour. -/
theorem regex_rules_chain_assoc (reSub : ReSub) (t : String) (r₁ r₂ : RegexRule) :
    applyRegexRulesToContent reSub t [r₁, r₂] =
      applyRegexRulesToContent reSub (applyRegexRulesToContent reSub t [r₁]) [r₂] := by
  simp [applyRegexRulesToContent]

/-! ### Template loader (C4, C5) -/

/-- C5: the template loader never raises: a missing file yields the empty
blueprint/rule sets; a parse failure or a non-sequence parse leaves the
cached sets unchanged when a successful load has occurred (non-zero cached
mtime, the source's own sentinel) and yields the empty sets otherwise.
Totality of `loadTemplates` embeds the catch-all exception handling. -/
theorem load_templates_degrades (st : TemplateCache) (forceReload : Bool) (fs : FileState) :
    (fs = .missing →
      (loadTemplates st forceReload fs).blueprints = [] ∧
      (loadTemplates st forceReload fs).rules = []) ∧
    (∀ m : Nat, (fs = .parseFailure m ∨ (∃ blob, fs = .parsed m (.notList blob))) →
      if st.mtime = 0 then
        (loadTemplates st forceReload fs).blueprints = [] ∧
        (loadTemplates st forceReload fs).rules = []
      else
        (loadTemplates st forceReload fs).blueprints = st.blueprints ∧
        (loadTemplates st forceReload fs).rules = st.rules) := by
  constructor
  · rintro rfl
    simp [loadTemplates]
  · rintro m (rfl | ⟨blob, rfl⟩) <;>
      · by_cases h0 : st.mtime = 0 <;>
          simp [loadTemplates, h0] <;> split <;> simp_all

theorem load_templates_degrades_witness :
    ((FileState.parseFailure 7 = .parseFailure 7 ∨
        (∃ blob, FileState.parseFailure 7 = .parsed 7 (.notList blob))) ∧
      (if (5 : Nat) = 0 then
        (loadTemplates ⟨[⟨none, some "system", .str "hi"⟩], [], 5, false⟩ false
          (.parseFailure 7)).blueprints = [] ∧
        (loadTemplates ⟨[⟨none, some "system", .str "hi"⟩], [], 5, false⟩ false
          (.parseFailure 7)).rules = []
      else
        (loadTemplates ⟨[⟨none, some "system", .str "hi"⟩], [], 5, false⟩ false
          (.parseFailure 7)).blueprints = [⟨none, some "system", .str "hi"⟩] ∧
        (loadTemplates ⟨[⟨none, some "system", .str "hi"⟩], [], 5, false⟩ false
          (.parseFailure 7)).rules = [])) :=
  ⟨Or.inl rfl,
    (load_templates_degrades ⟨[⟨none, some "system", .str "hi"⟩], [], 5, false⟩ false
      (.parseFailure 7)).2 7 (Or.inl rfl)⟩

/-- C4 counterexample: a cache that holds a previously successfully loaded
set (mtime 5 ≠ 0, non-empty blueprints) is replaced by the empty set when
the loader observes a missing file — the loader does not keep the
last-known-good set in the file-missing case. -/
theorem missing_file_clears_cache_counterexample :
    (loadTemplates ⟨[⟨none, some "system", .str "hi"⟩], [⟨"a", "b", "replace"⟩], 5, false⟩
        false .missing).blueprints = [] ∧
    (loadTemplates ⟨[⟨none, some "system", .str "hi"⟩], [⟨"a", "b", "replace"⟩], 5, false⟩
        false .missing).rules = [] ∧
    (5 : Nat) ≠ 0 ∧
    ([⟨none, some "system", Content.str "hi"⟩] : List Blueprint) ≠ [] := by
  refine ⟨rfl, rfl, by decide, by simp⟩

/-- C4 (amended): for a cache with a previous successful load (non-zero
mtime), last-known-good semantics hold on parse failures and non-sequence
content — the cached set is never replaced; the file-missing case, however,
forces the cache to the empty set and resets the mtime sentinel. -/
theorem template_cache_last_known_good (st : TemplateCache) (forceReload : Bool)
    (fs : FileState) (hmt : st.mtime ≠ 0) :
    (∀ m, fs = .parseFailure m → loadTemplates st forceReload fs = st) ∧
    (∀ m blob, fs = .parsed m (.notList blob) →
      (loadTemplates st forceReload fs).blueprints = st.blueprints ∧
      (loadTemplates st forceReload fs).rules = st.rules ∧
      (loadTemplates st forceReload fs).mtime = st.mtime) ∧
    (fs = .missing →
      (loadTemplates st forceReload fs).blueprints = [] ∧
      (loadTemplates st forceReload fs).rules = [] ∧
      (loadTemplates st forceReload fs).mtime = 0) := by
  refine ⟨?_, ?_, ?_⟩
  · rintro m rfl
    simp only [loadTemplates]
    split
    · rfl
    · simp [hmt]
  · rintro m blob rfl
    simp only [loadTemplates]
    split
    · simp
    · simp [hmt]
  · rintro rfl
    simp [loadTemplates]

theorem template_cache_last_known_good_witness :
    ((5 : Nat) ≠ 0 ∧ FileState.parseFailure 7 = .parseFailure 7) ∧
      loadTemplates ⟨[⟨none, some "system", .str "hi"⟩], [], 5, false⟩ false
        (.parseFailure 7) = ⟨[⟨none, some "system", .str "hi"⟩], [], 5, false⟩ :=
  ⟨⟨by decide, rfl⟩,
    (template_cache_last_known_good ⟨[⟨none, some "system", .str "hi"⟩], [], 5, false⟩
      false (.parseFailure 7) (by decide)).1 7 rfl⟩

/-! ### JSON-payload regex rules (C7) -/

/-- C7 counterexample: the claim predicts that applying a JSON-payload rule
always rewrites the text to the pretty-printed JSON of an object carrying
`tool_code_interpreter_output`; but on `"5"` — which parses successfully to
a non-object — the rule is skipped and the text is unchanged (in particular
it is not the injected empty-object output either). -/
theorem json_payload_nondict_counterexample :
    applyRegexRulesToContent (fun _ _ t => some t) "5"
        [⟨"f", "\x7b\"payload\": \"X\"\x7d", "json_payload"⟩] = "5" ∧
    jsonLoads "5" = some (.num 5) ∧
    "5" ≠ jsonDumpsPretty 0 (.obj [("tool_code_interpreter_output", .str "X")]) := by
  refine ⟨by with_unfolding_all rfl, by with_unfolding_all rfl, ?_⟩
  rw [show jsonDumpsPretty 0 (JValue.obj [("tool_code_interpreter_output", .str "X")])
        = "\x7b\n  \"tool_code_interpreter_output\": \"X\"\n\x7d" from rfl]
  decide

/-- C7 (amended): for a JSON-payload rule whose replace field parses to a
JSON object with a non-null `payload` value, applied to a working text that
parses to a JSON object, the text becomes the pretty-printed JSON
(`ensure_ascii=False, indent=2`) of that object with the payload written
under `tool_code_interpreter_output`; a text that parses to a non-object
leaves the rule skipped, and a text that fails to parse starts from the
empty object. -/
theorem json_payload_rule (reSub : ReSub) (t : String) (rule : RegexRule)
    (pfields cfields : List (String × JValue)) (payload : JValue)
    (ha : rule.action = "json_payload")
    (hr : jsonLoads rule.replace = some (.obj pfields))
    (hp : JValue.objGet pfields "payload" = some payload)
    (hpn : payload ≠ .null)
    (hc : jsonLoads t = some (.obj cfields)) :
    applyRegexRulesToContent reSub t [rule] =
      jsonDumpsPretty 0 (.obj (JValue.objSet cfields "tool_code_interpreter_output" payload)) := by
  cases payload with
  | null => exact absurd rfl hpn
  | bool b => simp [applyRegexRulesToContent, applyOneRule, ha, hr, hp, hc]
  | num n => simp [applyRegexRulesToContent, applyOneRule, ha, hr, hp, hc]
  | str s => simp [applyRegexRulesToContent, applyOneRule, ha, hr, hp, hc]
  | arr l => simp [applyRegexRulesToContent, applyOneRule, ha, hr, hp, hc]
  | obj l => simp [applyRegexRulesToContent, applyOneRule, ha, hr, hp, hc]

/-- Scenario C of the spec, as the witness: `replace = \x7b"payload": "X"\x7d`
applied to `\x7b"a":1\x7d` yields `\x7b"a": 1,
"tool_code_interpreter_output": "X"\x7d`, pretty-printed. -/
theorem json_payload_rule_witness :
    ((⟨"f", "\x7b\"payload\": \"X\"\x7d", "json_payload"⟩ : RegexRule).action = "json_payload" ∧
      jsonLoads (⟨"f", "\x7b\"payload\": \"X\"\x7d", "json_payload"⟩ : RegexRule).replace
        = some (.obj [("payload", .str "X")]) ∧
      JValue.objGet [("payload", JValue.str "X")] "payload" = some (.str "X") ∧
      (JValue.str "X") ≠ .null ∧
      jsonLoads "\x7b\"a\":1\x7d" = some (.obj [("a", .num 1)])) ∧
    applyRegexRulesToContent (fun _ _ t => some t) "\x7b\"a\":1\x7d"
        [⟨"f", "\x7b\"payload\": \"X\"\x7d", "json_payload"⟩] =
      jsonDumpsPretty 0
        (.obj (JValue.objSet [("a", .num 1)] "tool_code_interpreter_output" (.str "X"))) ∧
    jsonDumpsPretty 0
        (.obj (JValue.objSet [("a", .num 1)] "tool_code_interpreter_output" (.str "X"))) =
      "\x7b\n  \"a\": 1,\n  \"tool_code_interpreter_output\": \"X\"\n\x7d" :=
  ⟨⟨rfl, by with_unfolding_all rfl, rfl, fun h => JValue.noConfusion h, by with_unfolding_all rfl⟩,
    json_payload_rule (fun _ _ t => some t) "\x7b\"a\":1\x7d"
      ⟨"f", "\x7b\"payload\": \"X\"\x7d", "json_payload"⟩
      [("payload", .str "X")] [("a", .num 1)] (.str "X")
      rfl (by with_unfolding_all rfl) rfl (fun h => JValue.noConfusion h) (by with_unfolding_all rfl),
    by with_unfolding_all rfl⟩

/-! ### Frame rendering facts (C1, C2, C3)

No JSON serialisation can collide with the literal `[DONE]` sentinel: every
`json.dumps` output starts with a brace, a bracket, a quote, a letter of
`null`/`true`/`false`, a digit or a minus sign, and a serialised array's
second character is never `D`. -/

theorem digitChar_isDigit {m : Nat} (h : m < 10) : (Nat.digitChar m).isDigit = true := by
  interval_cases m <;> decide

theorem toDigitsCore_digits :
    ∀ (fuel n : Nat) (acc : List Char), (∀ c ∈ acc, c.isDigit = true) →
      ∀ c ∈ Nat.toDigitsCore 10 fuel n acc, c.isDigit = true := by
  intro fuel
  induction fuel with
  | zero => intro n acc hacc; simpa [Nat.toDigitsCore] using hacc
  | succ f ih =>
      intro n acc hacc c hc
      rw [Nat.toDigitsCore] at hc
      split at hc
      · rcases List.mem_cons.mp hc with rfl | hmem
        · exact digitChar_isDigit (Nat.mod_lt n (by omega))
        · exact hacc _ hmem
      · refine ih (n / 10) _ ?_ c hc
        intro c₂ hc₂
        rcases List.mem_cons.mp hc₂ with rfl | hmem
        · exact digitChar_isDigit (Nat.mod_lt n (by omega))
        · exact hacc _ hmem

theorem toDigitsCore_ne_nil_of_acc :
    ∀ (fuel n : Nat) (acc : List Char), acc ≠ [] → Nat.toDigitsCore 10 fuel n acc ≠ [] := by
  intro fuel
  induction fuel with
  | zero => intro n acc hacc; simpa [Nat.toDigitsCore] using hacc
  | succ f ih =>
      intro n acc hacc
      rw [Nat.toDigitsCore]
      split
      · simp
      · exact ih (n / 10) _ (by simp)

theorem toDigitsCore_ne_nil (f n : Nat) (acc : List Char) :
    Nat.toDigitsCore 10 (f + 1) n acc ≠ [] := by
  rw [Nat.toDigitsCore]
  split
  · simp
  · exact toDigitsCore_ne_nil_of_acc f (n / 10) _ (by simp)

theorem nat_repr_chars (n : Nat) :
    (Nat.repr n).data ≠ [] ∧ ∀ c ∈ (Nat.repr n).data, c.isDigit = true := by
  show Nat.toDigits 10 n ≠ [] ∧ ∀ c ∈ Nat.toDigits 10 n, c.isDigit = true
  unfold Nat.toDigits
  exact ⟨toDigitsCore_ne_nil n n [], toDigitsCore_digits (n + 1) n [] (by simp)⟩

theorem int_toString_chars (n : Int) :
    (toString n).data ≠ [] ∧ ∀ c ∈ (toString n).data, (c.isDigit = true ∨ c = '-') := by
  show (Int.repr n).data ≠ [] ∧ ∀ c ∈ (Int.repr n).data, (c.isDigit = true ∨ c = '-')
  cases n with
  | ofNat m =>
      obtain ⟨h₁, h₂⟩ := nat_repr_chars m
      exact ⟨h₁, fun c hc => Or.inl (h₂ c hc)⟩
  | negSucc m =>
      obtain ⟨h₁, h₂⟩ := nat_repr_chars (m + 1)
      have hdata : (Int.repr (Int.negSucc m)).data = '-' :: (Nat.repr (m + 1)).data := by
        show (("-" : String) ++ Nat.repr (Nat.succ m)).data = _
        rw [String.data_append]
        rfl
      rw [hdata]
      refine ⟨by simp, ?_⟩
      intro c hc
      rcases List.mem_cons.mp hc with rfl | hmem
      · exact Or.inr rfl
      · exact Or.inl (h₂ c hmem)

theorem jsonDumps_str_data (ea : Bool) (s : String) :
    (jsonDumps ea (.str s)).data = '"' :: ((escapeString ea s).data ++ ['"']) := by
  show (("\"" : String) ++ escapeString ea s ++ "\"").data = _
  rw [String.data_append, String.data_append]
  rfl

theorem jsonDumps_obj_data (ea : Bool) (l : List (String × JValue)) :
    (jsonDumps ea (.obj l)).data = '\x7b' :: ((dumpsObj ea l).data ++ ['\x7d']) := by
  show (("\x7b" : String) ++ dumpsObj ea l ++ "\x7d").data = _
  rw [String.data_append, String.data_append]
  rfl

theorem jsonDumps_arr_data (ea : Bool) (l : List JValue) :
    (jsonDumps ea (.arr l)).data = '[' :: ((dumpsArr ea l).data ++ [']']) := by
  show (("[" : String) ++ dumpsArr ea l ++ "]").data = _
  rw [String.data_append, String.data_append]
  rfl

theorem dumpsArr_cons_head (ea : Bool) (v : JValue) (rest : List JValue) :
    ∃ tail, (dumpsArr ea (v :: rest)).data = (jsonDumps ea v).data ++ tail := by
  cases rest with
  | nil => exact ⟨[], by rw [show dumpsArr ea [v] = jsonDumps ea v from rfl]; simp⟩
  | cons w ws =>
      refine ⟨(", " ++ dumpsArr ea (w :: ws)).data, ?_⟩
      rw [show dumpsArr ea (v :: w :: ws)
            = jsonDumps ea v ++ (", " ++ dumpsArr ea (w :: ws)) from by
          rw [dumpsArr]
          · rw [String.append_assoc]
          · simp]
      rw [String.data_append]

theorem string_ext {s t : String} (h : s.data = t.data) : s = t := by
  cases s; cases t; exact congrArg String.mk h

/-- Every serialisation starts with one of the characters a JSON value can
start with — never `D`. -/
theorem jsonDumps_head (v : JValue) :
    ∃ c cs, (jsonDumps true v).data = c :: cs ∧
      (c = 'n' ∨ c = 't' ∨ c = 'f' ∨ c = '"' ∨ c = '[' ∨ c = '\x7b' ∨
        c.isDigit = true ∨ c = '-') := by
  cases v with
  | null => exact ⟨'n', ['u', 'l', 'l'], rfl, by decide⟩
  | bool b =>
      cases b
      · exact ⟨'f', ['a', 'l', 's', 'e'], rfl, by decide⟩
      · exact ⟨'t', ['r', 'u', 'e'], rfl, by decide⟩
  | num n =>
      obtain ⟨h₁, h₂⟩ := int_toString_chars n
      obtain ⟨c, cs, hdata⟩ : ∃ c cs, (toString n).data = c :: cs := by
        cases hd : (toString n).data with
        | nil => exact absurd hd h₁
        | cons c cs => exact ⟨c, cs, rfl⟩
      refine ⟨c, cs, hdata, ?_⟩
      rcases h₂ c (hdata ▸ List.mem_cons_self c cs) with h | h
      · exact Or.inr (Or.inr (Or.inr (Or.inr (Or.inr (Or.inr (Or.inl h))))))
      · exact Or.inr (Or.inr (Or.inr (Or.inr (Or.inr (Or.inr (Or.inr h))))))
  | str s => exact ⟨'"', _, jsonDumps_str_data true s, by decide⟩
  | arr l => exact ⟨'[', _, jsonDumps_arr_data true l, by decide⟩
  | obj l => exact ⟨'\x7b', _, jsonDumps_obj_data true l, by decide⟩

/-- No JSON serialisation is the `[DONE]` sentinel payload. -/
theorem jsonDumps_ne_done (v : JValue) : jsonDumps true v ≠ "[DONE]" := by
  intro h
  have hdata : (jsonDumps true v).data = ['[', 'D', 'O', 'N', 'E', ']'] := by
    rw [h]
  cases v with
  | null => exact absurd hdata (by decide)
  | bool b => cases b <;> exact absurd hdata (by decide)
  | num n =>
      have hD : 'D' ∈ (toString n).data := by
        rw [show (jsonDumps true (JValue.num n)).data = (toString n).data from rfl] at hdata
        rw [hdata]; decide
      rcases (int_toString_chars n).2 'D' hD with h₁ | h₁ <;> simp at h₁
  | str s =>
      rw [jsonDumps_str_data] at hdata
      injection hdata with h₁ h₂
      exact absurd h₁ (by decide)
  | obj l =>
      rw [jsonDumps_obj_data] at hdata
      injection hdata with h₁ h₂
      exact absurd h₁ (by decide)
  | arr l =>
      rw [jsonDumps_arr_data] at hdata
      injection hdata with h₁ h₂
      cases l with
      | nil =>
          rw [show (dumpsArr true ([] : List JValue)).data = [] from rfl] at h₂
          exact absurd h₂ (by decide)
      | cons v₂ rest =>
          obtain ⟨tail, htail⟩ := dumpsArr_cons_head true v₂ rest
          rw [htail] at h₂
          obtain ⟨c, cs, hd₂, hset₂⟩ := jsonDumps_head v₂
          rw [hd₂] at h₂
          simp only [List.cons_append, List.append_assoc] at h₂
          injection h₂ with h₃ h₄
          subst h₃
          rcases hset₂ with h₁ | h₁ | h₁ | h₁ | h₁ | h₁ | h₁ | h₁ <;> simp_all

theorem fakeStreamFrames_toCompletion (reSub : ReSub) (rules : List RegexRule)
    (bodyModel : Option JValue) (clock : Nat → Int) (now : Int) (hb : Nat) (r : TaskResult) :
    fakeStreamFrames reSub rules bodyModel clock now (.toCompletion hb r)
      = heartbeatFrames clock bodyModel hb ++
          (completionFrames reSub rules bodyModel now r ++ [Frame.done]) := by
  simp [fakeStreamFrames]

theorem fakeStreamFrames_cancelled (reSub : ReSub) (rules : List RegexRule)
    (bodyModel : Option JValue) (clock : Nat → Int) (now : Int) (hb : Nat) :
    fakeStreamFrames reSub rules bodyModel clock now (.cancelledInLoop hb)
      = heartbeatFrames clock bodyModel hb ++ [Frame.done] := by
  simp [fakeStreamFrames]

theorem sse_payload_inj {p : String} (h : "data: " ++ p ++ "\n\n" = "data: [DONE]\n\n") :
    p = "[DONE]" := by
  have hdata := congrArg String.data h
  rw [String.data_append, String.data_append] at hdata
  rw [show ("data: [DONE]\n\n").data
        = ("data: ").data ++ ("[DONE]").data ++ ("\n\n").data from by decide] at hdata
  exact string_ext (List.append_cancel_left (List.append_cancel_right hdata))

/-- A frame renders to the sentinel string exactly when it is the `done`
frame: no JSON data frame can impersonate `[DONE]`. -/
theorem renderFrame_eq_done_iff (f : Frame) :
    renderFrame f = "data: [DONE]\n\n" ↔ f = Frame.done := by
  constructor
  · intro h
    cases f with
    | done => rfl
    | heartbeat ts model => exact absurd (sse_payload_inj h) (jsonDumps_ne_done _)
    | errorFrame p => exact absurd (sse_payload_inj h) (jsonDumps_ne_done _)
    | roleChunk id cr mo r => exact absurd (sse_payload_inj h) (jsonDumps_ne_done _)
    | contentChunk id cr mo c => exact absurd (sse_payload_inj h) (jsonDumps_ne_done _)
    | finishChunk id cr mo fi => exact absurd (sse_payload_inj h) (jsonDumps_ne_done _)
    | rawData v => exact absurd (sse_payload_inj h) (jsonDumps_ne_done _)
  · rintro rfl
    rfl

/-- Everything the post-completion branch emits is a delta chunk, an error
frame, or the raw-data frame — never a heartbeat, never the sentinel. -/
theorem successFrames_kinds (reSub : ReSub) (rules : List RegexRule)
    (bodyModel : Option JValue) (now : Int) (v : JValue) :
    ∀ f ∈ successFrames reSub rules bodyModel now v,
      f.isDelta = true ∨ f.isError = true ∨ ∃ w, f = Frame.rawData w := by
  intro f hf
  unfold successFrames at hf
  split at hf
  · rename_i fields
    split at hf
    · rename_i cv hcv
      split at hf
      · split at hf
        · rename_i c0f restc
          split at hf
          · rename_i mf hmf
            simp only [List.mem_append] at hf
            rcases hf with (hf | hf) | hf
            · unfold roleFramesOf at hf
              split at hf
              · split at hf
                · simp only [List.mem_singleton] at hf
                  subst hf; exact Or.inl rfl
                · exact absurd hf (by simp)
              · exact absurd hf (by simp)
            · unfold contentFramesOf at hf
              split at hf
              · split at hf
                · exact absurd hf (by simp)
                · simp only [List.mem_singleton] at hf
                  subst hf; exact Or.inl rfl
              · exact absurd hf (by simp)
            · unfold finishFramesOf at hf
              split at hf
              · split at hf
                · simp only [List.mem_singleton] at hf
                  subst hf; exact Or.inl rfl
                · exact absurd hf (by simp)
              · exact absurd hf (by simp)
          · simp only [List.mem_singleton] at hf
            subst hf; exact Or.inr (Or.inl rfl)
        · simp only [List.mem_singleton] at hf
          subst hf; exact Or.inr (Or.inl rfl)
      · simp only [List.mem_singleton] at hf
        subst hf; exact Or.inr (Or.inr ⟨_, rfl⟩)
    · simp only [List.mem_singleton] at hf
      subst hf; exact Or.inr (Or.inr ⟨_, rfl⟩)
  · simp only [List.mem_singleton] at hf
    subst hf; exact Or.inr (Or.inr ⟨_, rfl⟩)

theorem completionFrames_kinds (reSub : ReSub) (rules : List RegexRule)
    (bodyModel : Option JValue) (now : Int) (r : TaskResult) :
    ∀ f ∈ completionFrames reSub rules bodyModel now r,
      f.isDelta = true ∨ f.isError = true ∨ ∃ w, f = Frame.rawData w := by
  intro f hf
  cases r with
  | exc e =>
      cases e <;>
        · simp only [completionFrames, List.mem_singleton] at hf
          subst hf; exact Or.inr (Or.inl rfl)
  | value v =>
      cases v with
      | null =>
          simp only [completionFrames, List.mem_singleton] at hf
          subst hf; exact Or.inr (Or.inl rfl)
      | bool b =>
          rw [show completionFrames reSub rules bodyModel now (.value (JValue.bool b))
                = successFrames reSub rules bodyModel now (JValue.bool b) from by
              with_unfolding_all rfl] at hf
          exact successFrames_kinds reSub rules bodyModel now _ f hf
      | num n =>
          rw [show completionFrames reSub rules bodyModel now (.value (JValue.num n))
                = successFrames reSub rules bodyModel now (JValue.num n) from by
              with_unfolding_all rfl] at hf
          exact successFrames_kinds reSub rules bodyModel now _ f hf
      | str s =>
          rw [show completionFrames reSub rules bodyModel now (.value (JValue.str s))
                = successFrames reSub rules bodyModel now (JValue.str s) from by
              with_unfolding_all rfl] at hf
          exact successFrames_kinds reSub rules bodyModel now _ f hf
      | arr l =>
          rw [show completionFrames reSub rules bodyModel now (.value (JValue.arr l))
                = successFrames reSub rules bodyModel now (JValue.arr l) from by
              with_unfolding_all rfl] at hf
          exact successFrames_kinds reSub rules bodyModel now _ f hf
      | obj l =>
          rw [show completionFrames reSub rules bodyModel now (.value (JValue.obj l))
                = successFrames reSub rules bodyModel now (JValue.obj l) from by
              with_unfolding_all rfl] at hf
          exact successFrames_kinds reSub rules bodyModel now _ f hf

theorem completionFrames_no_done (reSub : ReSub) (rules : List RegexRule)
    (bodyModel : Option JValue) (now : Int) (r : TaskResult) :
    Frame.done ∉ completionFrames reSub rules bodyModel now r := by
  intro h
  rcases completionFrames_kinds reSub rules bodyModel now r _ h with h₁ | h₁ | ⟨w, h₁⟩ <;>
    simp [Frame.isDelta, Frame.isError] at h₁

theorem completionFrames_no_heartbeat (reSub : ReSub) (rules : List RegexRule)
    (bodyModel : Option JValue) (now : Int) (r : TaskResult) (ts : Int) (m : JValue) :
    Frame.heartbeat ts m ∉ completionFrames reSub rules bodyModel now r := by
  intro h
  rcases completionFrames_kinds reSub rules bodyModel now r _ h with h₁ | h₁ | ⟨w, h₁⟩ <;>
    simp [Frame.isDelta, Frame.isError] at h₁

theorem mem_heartbeatFrames {clock : Nat → Int} {bodyModel : Option JValue} {n : Nat}
    {f : Frame} (h : f ∈ heartbeatFrames clock bodyModel n) :
    ∃ k, f = Frame.heartbeat (clock k) (heartbeatModelOf bodyModel) := by
  obtain ⟨k, hk, rfl⟩ := List.mem_map.mp h
  exact ⟨k, rfl⟩

/-- The common tail facts: appending the sentinel to a done-free prefix
gives a non-empty sequence ending in `done`, containing it exactly once, at
frame level and at rendered-string level alike. -/
theorem done_tail_facts (l : List Frame) (hl : Frame.done ∉ l) :
    l ++ [Frame.done] ≠ [] ∧
    (l ++ [Frame.done]).getLast? = some Frame.done ∧
    (l ++ [Frame.done]).count Frame.done = 1 ∧
    ((l ++ [Frame.done]).map renderFrame).getLast? = some "data: [DONE]\n\n" ∧
    ((l ++ [Frame.done]).map renderFrame).count "data: [DONE]\n\n" = 1 := by
  refine ⟨by simp, List.getLast?_concat l, ?_, ?_, ?_⟩
  · rw [List.count_append, List.count_eq_zero.mpr hl]
    simp
  · rw [List.map_append]
    rw [show List.map renderFrame [Frame.done] = ["data: [DONE]\n\n"] from rfl]
    exact List.getLast?_concat _
  · rw [List.map_append, List.count_append]
    have h0 : (l.map renderFrame).count "data: [DONE]\n\n" = 0 := by
      rw [List.count_eq_zero]
      intro hmem
      obtain ⟨f, hf, hrf⟩ := List.mem_map.mp hmem
      exact hl (((renderFrame_eq_done_iff f).mp hrf) ▸ hf)
    rw [h0]
    simp [renderFrame]

/-- C1: every run of the fake-stream emulator — task success, task failure,
or generator cancellation — emits the `data: [DONE]` sentinel exactly once,
as the final frame, after all heartbeat, delta and error frames. -/
theorem done_sentinel_exactly_once (reSub : ReSub) (rules : List RegexRule)
    (bodyModel : Option JValue) (clock : Nat → Int) (now : Int) (mode : RunMode) :
    fakeStreamFrames reSub rules bodyModel clock now mode ≠ [] ∧
    (fakeStreamFrames reSub rules bodyModel clock now mode).getLast? = some Frame.done ∧
    (fakeStreamFrames reSub rules bodyModel clock now mode).count Frame.done = 1 ∧
    ((fakeStreamFrames reSub rules bodyModel clock now mode).map renderFrame).getLast?
      = some "data: [DONE]\n\n" ∧
    ((fakeStreamFrames reSub rules bodyModel clock now mode).map renderFrame).count
      "data: [DONE]\n\n" = 1 := by
  cases mode with
  | cancelledInLoop hb =>
      have hl : Frame.done ∉ heartbeatFrames clock bodyModel hb := by
        intro h
        obtain ⟨k, hk⟩ := mem_heartbeatFrames h
        exact Frame.noConfusion hk
      rw [fakeStreamFrames_cancelled]
      exact done_tail_facts _ hl
  | toCompletion hb r =>
      have hl : Frame.done ∉
          heartbeatFrames clock bodyModel hb ++ completionFrames reSub rules bodyModel now r := by
        intro h
        rcases List.mem_append.mp h with h | h
        · obtain ⟨k, hk⟩ := mem_heartbeatFrames h
          exact Frame.noConfusion hk
        · exact completionFrames_no_done reSub rules bodyModel now r h
      have hfacts := done_tail_facts _ hl
      rw [List.append_assoc] at hfacts
      rw [fakeStreamFrames_toCompletion]
      exact hfacts

/-- C2: a failing wrapped task yields exactly one error frame and no
role/content/finish decomposition frames; a structured upstream error
(`HTTPException`) yields the error frame carrying its status code and
message, followed only by the sentinel. -/
theorem failure_single_error_frame (reSub : ReSub) (rules : List RegexRule)
    (bodyModel : Option JValue) (clock : Nat → Int) (now : Int) (hb : Nat) (e : TaskExc) :
    (fakeStreamFrames reSub rules bodyModel clock now
        (.toCompletion hb (.exc e))).countP Frame.isError = 1 ∧
    (fakeStreamFrames reSub rules bodyModel clock now
        (.toCompletion hb (.exc e))).countP Frame.isDelta = 0 ∧
    (∀ code detail, e = .http code detail →
      fakeStreamFrames reSub rules bodyModel clock now (.toCompletion hb (.exc e))
        = heartbeatFrames clock bodyModel hb ++
            [Frame.errorFrame (httpErrorPayload code detail), Frame.done]) := by
  have hhb0 : ∀ p : Frame → Bool, (∀ ts m, p (Frame.heartbeat ts m) = false) →
      (heartbeatFrames clock bodyModel hb).countP p = 0 := by
    intro p hp
    rw [List.countP_eq_zero]
    intro f hf
    obtain ⟨k, rfl⟩ := mem_heartbeatFrames hf
    simp [hp]
  refine ⟨?_, ?_, ?_⟩
  · rw [fakeStreamFrames_toCompletion]
    rw [List.countP_append, hhb0 Frame.isError (fun _ _ => rfl)]
    cases e <;> rfl
  · rw [fakeStreamFrames_toCompletion]
    rw [List.countP_append, hhb0 Frame.isDelta (fun _ _ => rfl)]
    cases e <;> rfl
  · rintro code detail rfl
    rw [fakeStreamFrames_toCompletion]
    rfl

theorem failure_single_error_frame_witness :
    (TaskExc.http 429 "Too Many Requests" = TaskExc.http 429 "Too Many Requests") ∧
    fakeStreamFrames (fun _ _ _ => none) [] none (fun _ => 0) 0
        (.toCompletion 0 (.exc (.http 429 "Too Many Requests")))
      = heartbeatFrames (fun _ => 0) none 0 ++
          [Frame.errorFrame (httpErrorPayload 429 "Too Many Requests"), Frame.done] :=
  ⟨rfl, (failure_single_error_frame (fun _ _ _ => none) [] none (fun _ => 0) 0 0
      (.http 429 "Too Many Requests")).2.2 429 "Too Many Requests" rfl⟩

/-- C3 counterexample: a request body whose `model` key is present with the
value `null` produces a heartbeat frame whose model field is `null` — the
claim's "never null" clause fails (Python's `dict.get(key, default)` falls
back only when the key is absent). -/
theorem heartbeat_null_model_counterexample :
    (fakeStreamFrames (fun _ _ _ => none) [] (some JValue.null) (fun _ => 0) 0
        (.cancelledInLoop 1)).head? = some (Frame.heartbeat 0 JValue.null) ∧
    heartbeatModelOf (some JValue.null) = JValue.null := by
  exact ⟨by with_unfolding_all rfl, rfl⟩

/-- C3 (amended): every heartbeat frame is a `chat.completion.chunk` with
an empty-string content delta, and its model field is the request body's
`model` value whenever the key is present (even an explicit `null`), and
the fixed fallback name when the key is absent. -/
theorem heartbeat_frame_model (reSub : ReSub) (rules : List RegexRule)
    (bodyModel : Option JValue) (clock : Nat → Int) (now : Int) (mode : RunMode)
    (ts : Int) (m : JValue)
    (hmem : Frame.heartbeat ts m ∈ fakeStreamFrames reSub rules bodyModel clock now mode) :
    m = bodyModel.getD (.str "gpt-3.5-turbo-proxy-heartbeat") ∧
    heartbeatChunk ts m
      = .obj [("id", .str ("chatcmpl-fake-hb-" ++ toString ts)),
              ("object", .str "chat.completion.chunk"),
              ("created", .num ts),
              ("model", m),
              ("choices", .arr [.obj [("index", .num 0), ("delta", .obj [("content", .str "")]),
                                      ("finish_reason", .null)]])] ∧
    renderFrame (Frame.heartbeat ts m)
      = "data: " ++ jsonDumps true (heartbeatChunk ts m) ++ "\n\n" := by
  refine ⟨?_, rfl, rfl⟩
  have hmodel : ∀ l : List Frame, Frame.heartbeat ts m ∈ l →
      (∀ f ∈ l, ∃ k, f = Frame.heartbeat (clock k) (heartbeatModelOf bodyModel)) →
      m = heartbeatModelOf bodyModel := by
    intro l hmem₂ hall
    obtain ⟨k, hk⟩ := hall _ hmem₂
    exact (Frame.heartbeat.injEq .. ▸ hk).2
  cases mode with
  | cancelledInLoop hb =>
      rw [fakeStreamFrames_cancelled] at hmem
      rcases List.mem_append.mp hmem with h | h
      · exact hmodel _ h fun f hf => mem_heartbeatFrames hf
      · simp only [List.mem_singleton] at h
        exact absurd h (by simp)
  | toCompletion hb r =>
      rw [fakeStreamFrames_toCompletion] at hmem
      rcases List.mem_append.mp hmem with h | h
      · exact hmodel _ h fun f hf => mem_heartbeatFrames hf
      · rcases List.mem_append.mp h with h₂ | h₂
        · exact absurd h₂ (completionFrames_no_heartbeat reSub rules bodyModel now r ts m)
        · simp only [List.mem_singleton] at h₂
          exact absurd h₂ (by simp)

theorem heartbeat_frame_model_witness :
    (Frame.heartbeat 0 (JValue.str "m") ∈
      fakeStreamFrames (fun _ _ _ => none) [] (some (.str "m")) (fun _ => 0) 0
        (.cancelledInLoop 1)) ∧
    JValue.str "m" = (some (JValue.str "m")).getD (.str "gpt-3.5-turbo-proxy-heartbeat") := by
  have hmem : Frame.heartbeat 0 (JValue.str "m") ∈
      fakeStreamFrames (fun _ _ _ => none) [] (some (.str "m")) (fun _ => 0) 0
        (.cancelledInLoop 1) := by
    rw [show fakeStreamFrames (fun _ _ _ => none) [] (some (.str "m")) (fun _ => 0) 0
          (.cancelledInLoop 1) = [Frame.heartbeat 0 (JValue.str "m"), Frame.done] from by
        with_unfolding_all rfl]
    exact List.mem_cons_self _ _
  exact ⟨hmem, (heartbeat_frame_model (fun _ _ _ => none) [] (some (.str "m")) (fun _ => 0) 0
    (.cancelledInLoop 1) 0 (JValue.str "m") hmem).1⟩

/-! ### Prepared-message invariants (C6) -/

theorem mergeLoop_cons_merge {current next : Msg} {a b : String} (rest : List Msg)
    (hc : current.content = .str a) (hn : next.content = .str b)
    (hrole : next.role = current.role) :
    mergeLoop current (next :: rest)
      = mergeLoop { current with content := .str (a ++ "\n" ++ b) } rest := by
  rw [mergeLoop]
  rw [hc, hn]
  simp [hrole]

theorem mergeLoop_cons_flush {current next : Msg} (rest : List Msg)
    (h : ¬((∃ a, current.content = Content.str a) ∧ (∃ b, next.content = Content.str b) ∧
        next.role = current.role)) :
    mergeLoop current (next :: rest) = current :: mergeLoop next rest := by
  rw [mergeLoop]
  cases hc : current.content with
  | str a =>
      cases hn : next.content with
      | str b =>
          have hrole : ¬ next.role = current.role := fun hr => h ⟨⟨a, hc⟩, ⟨b, hn⟩, hr⟩
          simp [hrole]
      | null => rfl
      | parts l => rfl
      | other blob t => rfl
  | null => cases next.content <;> rfl
  | parts l => cases next.content <;> rfl
  | other blob t => cases next.content <;> rfl

/-- The head of a merge run keeps the starting message's role and
string-ness: merging only extends a string content with more string
content. -/
theorem mergeLoop_head (rest : List Msg) : ∀ (current : Msg),
    ∃ h t, mergeLoop current rest = h :: t ∧ h.role = current.role ∧
      h.content.isStr = current.content.isStr := by
  induction rest with
  | nil => exact fun current => ⟨current, [], rfl, rfl, rfl⟩
  | cons next rest ih =>
      intro current
      by_cases h : (∃ a, current.content = Content.str a) ∧
          (∃ b, next.content = Content.str b) ∧ next.role = current.role
      · obtain ⟨⟨a, ha⟩, ⟨b, hb⟩, hrole⟩ := h
        obtain ⟨hd, t, heq, hr, hs⟩ := ih { current with content := .str (a ++ "\n" ++ b) }
        exact ⟨hd, t, by rw [mergeLoop_cons_merge rest ha hb hrole, heq], hr,
          by rw [hs]; simp [Content.isStr, ha]⟩
      · exact ⟨current, mergeLoop next rest, mergeLoop_cons_flush rest h, rfl, rfl⟩

/-- The merged list never contains an adjacent same-role pair of
string-content messages. -/
theorem mergeLoop_chain (rest : List Msg) : ∀ (current : Msg),
    List.Chain' (fun m₁ m₂ => ¬(m₁.role = m₂.role ∧
        (∃ a, m₁.content = Content.str a) ∧ (∃ b, m₂.content = Content.str b)))
      (mergeLoop current rest) := by
  induction rest with
  | nil => intro current; rw [mergeLoop]; exact List.chain'_singleton current
  | cons next rest ih =>
      intro current
      by_cases h : (∃ a, current.content = Content.str a) ∧
          (∃ b, next.content = Content.str b) ∧ next.role = current.role
      · obtain ⟨⟨a, ha⟩, ⟨b, hb⟩, hrole⟩ := h
        rw [mergeLoop_cons_merge rest ha hb hrole]
        exact ih _
      · rw [mergeLoop_cons_flush rest h]
        obtain ⟨hd, t, heq, hr, hs⟩ := mergeLoop_head rest next
        rw [heq]
        rw [List.chain'_cons]
        refine ⟨?_, heq ▸ ih next⟩
        rintro ⟨hrole, ⟨a, ha⟩, ⟨b, hb⟩⟩
        refine h ⟨⟨a, ha⟩, ?_, (hrole ▸ hr).symm⟩
        have : next.content.isStr = true := by rw [← hs, hb]; rfl
        cases hnc : next.content <;> rw [hnc] at this <;> simp [Content.isStr] at this
        exact ⟨_, rfl⟩

theorem keepMessage_iff (m : Msg) :
    keepMessage m = true ↔
      (m.content ≠ .null ∧ m.content ≠ .str "" ∧ m.content ≠ .parts []) := by
  unfold keepMessage
  cases h : m.content with
  | null => simp
  | str s => simp [h]
  | parts l => simp [h, List.isEmpty_iff]
  | other blob t => simp [h]

/-- Merging preserves the kept-message property: joined contents are
non-empty strings. -/
theorem mergeLoop_keep (rest : List Msg) : ∀ (current : Msg),
    keepMessage current = true → (∀ m ∈ rest, keepMessage m = true) →
    ∀ m ∈ mergeLoop current rest, keepMessage m = true := by
  induction rest with
  | nil =>
      intro current hcur _ m hm
      rw [mergeLoop] at hm
      simp only [List.mem_singleton] at hm
      exact hm ▸ hcur
  | cons next rest ih =>
      intro current hcur hrest m hm
      by_cases h : (∃ a, current.content = Content.str a) ∧
          (∃ b, next.content = Content.str b) ∧ next.role = current.role
      · obtain ⟨⟨a, ha⟩, ⟨b, hb⟩, hrole⟩ := h
        rw [mergeLoop_cons_merge rest ha hb hrole] at hm
        refine ih _ ?_ (fun m hm₂ => hrest m (List.mem_cons_of_mem _ hm₂)) m hm
        rw [keepMessage_iff]
        refine ⟨by simp, ?_, by simp⟩
        intro hcontra
        simp only [Content.str.injEq] at hcontra
        have hdata : (a ++ "\n" ++ b).data = [] := by rw [hcontra]
        rw [String.data_append, String.data_append] at hdata
        simp at hdata
      · rw [mergeLoop_cons_flush rest h] at hm
        rcases List.mem_cons.mp hm with rfl | hm₂
        · exact hcur
        · exact ih next (hrest next (List.mem_cons_self ..))
            (fun m hm₃ => hrest m (List.mem_cons_of_mem _ hm₃)) m hm₂

/-- C6: for every request body (and template/rule state and random stream),
the prepared message list contains no message whose content is null, the
empty string, or an empty structured list, and no two adjacent messages
share a role while both contents are plain strings; adjacent same-role
string contents are joined by the merge with a newline, and a pair that is
not two same-role strings (structured content in particular) is never
merged across the boundary. -/
theorem prepared_messages_invariants (bpW bpWo : List Blueprint)
    (rW rWo : List RegexRule) (g : Nat → Nat) (body : RequestBody) :
    (∀ m ∈ (prepareOpenaiMessages bpW bpWo rW rWo g body).messages,
        m.content ≠ .null ∧ m.content ≠ .str "" ∧ m.content ≠ .parts []) ∧
    List.Chain' (fun m₁ m₂ => ¬(m₁.role = m₂.role ∧
        (∃ a, m₁.content = Content.str a) ∧ (∃ b, m₂.content = Content.str b)))
      (prepareOpenaiMessages bpW bpWo rW rWo g body).messages ∧
    (∀ (role : Option String) (a b : String) (rest : List Msg),
      mergeMessages (⟨role, .str a⟩ :: ⟨role, .str b⟩ :: rest)
        = mergeMessages (⟨role, .str (a ++ "\n" ++ b)⟩ :: rest)) ∧
    (∀ (m₁ m₂ : Msg) (rest : List Msg),
      ¬((∃ a, m₁.content = Content.str a) ∧ (∃ b, m₂.content = Content.str b) ∧
          m₂.role = m₁.role) →
      mergeMessages (m₁ :: m₂ :: rest) = m₁ :: mergeMessages (m₂ :: rest)) := by
  refine ⟨?_, ?_, ?_, ?_⟩
  · show ∀ m ∈ mergeMessages ((prepareExpanded bpW bpWo g body).filter keepMessage), _
    cases hf : (prepareExpanded bpW bpWo g body).filter keepMessage with
    | nil => intro m hm; rw [mergeMessages] at hm; exact absurd hm (by simp)
    | cons first rest =>
        intro m hm
        rw [mergeMessages] at hm
        have hkeep : ∀ m₂ ∈ first :: rest, keepMessage m₂ = true := by
          rw [← hf]
          intro m₂ hm₂
          exact List.of_mem_filter hm₂
        exact (keepMessage_iff m).mp
          (mergeLoop_keep rest first (hkeep first (List.mem_cons_self ..))
            (fun m₂ hm₂ => hkeep m₂ (List.mem_cons_of_mem _ hm₂)) m hm)
  · show List.Chain' _ (mergeMessages ((prepareExpanded bpW bpWo g body).filter keepMessage))
    cases hf : (prepareExpanded bpW bpWo g body).filter keepMessage with
    | nil => rw [mergeMessages]; exact List.chain'_nil
    | cons first rest => rw [mergeMessages]; exact mergeLoop_chain rest first
  · intro role a b rest
    show mergeLoop _ _ = mergeLoop _ _
    rw [@mergeLoop_cons_merge ⟨role, .str a⟩ ⟨role, .str b⟩ a b rest rfl rfl rfl]
  · intro m₁ m₂ rest h
    show mergeLoop _ _ = _ :: mergeLoop _ _
    rw [mergeLoop_cons_flush rest h]

theorem prepared_messages_invariants_witness :
    (¬((∃ a, Content.str "x" = Content.str a) ∧
        (∃ b, Content.parts [ContentPart.text "y"] = Content.str b) ∧
        (some "user" : Option String) = some "user")) ∧
    mergeMessages [⟨some "user", Content.str "x"⟩, ⟨some "user", .parts [ContentPart.text "y"]⟩]
      = ⟨some "user", Content.str "x"⟩ ::
          mergeMessages [⟨some "user", Content.parts [ContentPart.text "y"]⟩] := by
  have hne : ¬((∃ a, Content.str "x" = Content.str a) ∧
      (∃ b, Content.parts [ContentPart.text "y"] = Content.str b) ∧
      (some "user" : Option String) = some "user") := by
    rintro ⟨-, ⟨b, hb⟩, -⟩
    exact Content.noConfusion hb
  exact ⟨hne,
    (prepared_messages_invariants [] [] [] [] (fun _ => 0) ⟨none, []⟩).2.2.2
      ⟨some "user", Content.str "x"⟩ ⟨some "user", .parts [ContentPart.text "y"]⟩ [] hne⟩

/-! ### Frame / aliasing property of the preparer (C10) -/

theorem StoreExt.refl (s : Store) : StoreExt s s := ⟨le_refl _, fun _ _ => rfl⟩

theorem StoreExt.trans {s₀ s₁ s₂ : Store} (h₁ : StoreExt s₀ s₁) (h₂ : StoreExt s₁ s₂) :
    StoreExt s₀ s₂ :=
  ⟨le_trans h₁.1 h₂.1, fun i hi => (h₂.2 i (lt_of_lt_of_le hi h₁.1)).trans (h₁.2 i hi)⟩

theorem StoreExt.snoc (s : Store) (m : Msg) : StoreExt s (s ++ [m]) :=
  ⟨by simp, fun i hi => List.get?_append hi⟩

theorem StoreExt.set {s₀ s : Store} {a : Nat} (ha : s₀.length ≤ a) (m : Msg)
    (h : StoreExt s₀ s) : StoreExt s₀ (setAddr s a m) := by
  refine ⟨by simpa [setAddr] using h.1, fun i hi => ?_⟩
  rw [show setAddr s a m = s.set a m from rfl, List.get?_set_ne m _ (by omega)]
  exact h.2 i hi

theorem allocCopies_ext : ∀ (ms : List Msg) (st : Store),
    StoreExt st (allocCopies st ms).1 ∧ ∀ a ∈ (allocCopies st ms).2, st.length ≤ a := by
  intro ms
  induction ms with
  | nil => exact fun st => ⟨StoreExt.refl st, by simp [allocCopies]⟩
  | cons m rest ih =>
      intro st
      obtain ⟨hext, haddr⟩ := ih (st ++ [m])
      refine ⟨(StoreExt.snoc st m).trans (by simpa [allocCopies] using hext), ?_⟩
      intro a ha
      simp only [allocCopies, List.mem_cons] at ha
      rcases ha with rfl | ha
      · exact le_refl _
      · have := haddr a ha
        simp at this
        omega

theorem processBlueprintsAddr_ext (historicVals : List Msg) (lui : Content)
    (lastText : String) : ∀ (bps : List Blueprint) (st : Store),
    StoreExt st (processBlueprintsAddr historicVals lui lastText st bps).1 ∧
    ∀ a ∈ (processBlueprintsAddr historicVals lui lastText st bps).2, st.length ≤ a := by
  intro bps
  induction bps with
  | nil => exact fun st => ⟨StoreExt.refl st, by simp [processBlueprintsAddr]⟩
  | cons bp rest ih =>
      intro st
      by_cases hph : bp.type? = some "api_input_placeholder"
      · obtain ⟨hext₁, haddr₁⟩ := allocCopies_ext historicVals st
        obtain ⟨hext₂, haddr₂⟩ := ih (allocCopies st historicVals).1
        constructor
        · simp only [processBlueprintsAddr, if_pos hph]
          exact hext₁.trans hext₂
        · intro a ha
          simp only [processBlueprintsAddr, if_pos hph, List.mem_append] at ha
          rcases ha with ha | ha
          · exact haddr₁ a ha
          · exact le_trans hext₁.1 (haddr₂ a ha)
      · obtain ⟨hext₂, haddr₂⟩ := ih (blueprintAlloc lui lastText st bp)
        have hba : StoreExt st (blueprintAlloc lui lastText st bp) ∧
            (blueprintAlloc lui lastText st bp).length = st.length + 1 := by
          unfold blueprintAlloc
          cases bp.content with
          | str s => exact ⟨StoreExt.set (le_refl _) _ (StoreExt.snoc ..), by simp [setAddr]⟩
          | null => exact ⟨StoreExt.snoc .., by simp⟩
          | parts l => exact ⟨StoreExt.snoc .., by simp⟩
          | other blob t => exact ⟨StoreExt.snoc .., by simp⟩
        constructor
        · simp only [processBlueprintsAddr, if_neg hph]
          exact hba.1.trans hext₂
        · intro a ha
          simp only [processBlueprintsAddr, if_neg hph, List.mem_cons] at ha
          rcases ha with rfl | ha
          · exact le_refl _
          · have := haddr₂ a ha
            omega

theorem expandAlloc_facts (st : Store) (m : Msg) (c : Content) :
    StoreExt st (expandAlloc st m c) ∧ (expandAlloc st m c).length = st.length + 1 := by
  unfold expandAlloc
  cases m.content with
  | str s => exact ⟨StoreExt.set (le_refl _) _ (StoreExt.snoc ..), by simp [setAddr]⟩
  | parts l => exact ⟨StoreExt.set (le_refl _) _ (StoreExt.snoc ..), by simp [setAddr]⟩
  | null => exact ⟨StoreExt.snoc .., by simp⟩
  | other blob t => exact ⟨StoreExt.snoc .., by simp⟩

theorem expandAddrs_ext (g : Nat → Nat) : ∀ (addrs : List Nat) (st : Store) (i : Nat),
    StoreExt st (expandAddrs g st i addrs).1 ∧
    ∀ a ∈ (expandAddrs g st i addrs).2.1, st.length ≤ a := by
  intro addrs
  induction addrs with
  | nil => exact fun st i => ⟨StoreExt.refl st, by simp [expandAddrs]⟩
  | cons a rest ih =>
      intro st i
      obtain ⟨hba, hlen⟩ := expandAlloc_facts st (readAddr st a)
        (expandContent g i (readAddr st a).content).1
      obtain ⟨hext₂, haddr₂⟩ := ih
        (expandAlloc st (readAddr st a) (expandContent g i (readAddr st a).content).1)
        (expandContent g i (readAddr st a).content).2
      constructor
      · simp only [expandAddrs]
        exact hba.trans hext₂
      · intro b hb
        simp only [expandAddrs, List.mem_cons] at hb
        rcases hb with rfl | hb
        · exact le_refl _
        · have := haddr₂ b hb
          omega

/-- The merge loop over the store either assigns into the accumulating cell
(an address it owns) or allocates a fresh one and flushes. -/
theorem mergeLoopAddr_cons_cases (st : Store) (cur na : Nat) (rest : List Nat) :
    (∃ m, mergeLoopAddr st cur (na :: rest) = mergeLoopAddr (setAddr st cur m) cur rest) ∨
    (mergeLoopAddr st cur (na :: rest)
      = ((mergeLoopAddr (st ++ [readAddr st na]) st.length rest).1,
         cur :: (mergeLoopAddr (st ++ [readAddr st na]) st.length rest).2)) := by
  rw [mergeLoopAddr]
  cases (readAddr st cur).content <;> cases (readAddr st na).content <;>
    first
      | exact Or.inr rfl
      | (dsimp only
         split
         · exact Or.inl ⟨_, rfl⟩
         · exact Or.inr rfl)

theorem mergeLoopAddr_ext : ∀ (rest : List Nat) (s₀ st : Store) (cur : Nat),
    s₀.length ≤ cur → StoreExt s₀ st →
    StoreExt s₀ (mergeLoopAddr st cur rest).1 ∧
    ∀ a ∈ (mergeLoopAddr st cur rest).2, s₀.length ≤ a := by
  intro rest
  induction rest with
  | nil =>
      intro s₀ st cur hcur hext
      rw [mergeLoopAddr]
      exact ⟨hext, by simpa using hcur⟩
  | cons na rest ih =>
      intro s₀ st cur hcur hext
      rcases mergeLoopAddr_cons_cases st cur na rest with ⟨m, heq⟩ | heq
      · rw [heq]
        exact ih s₀ _ cur hcur (StoreExt.set hcur m hext)
      · rw [heq]
        obtain ⟨hext₂, haddr₂⟩ := ih s₀ (st ++ [readAddr st na]) st.length
          (le_trans hext.1 (by simp)) (hext.trans (StoreExt.snoc ..))
        refine ⟨hext₂, ?_⟩
        intro a ha
        rcases List.mem_cons.mp ha with rfl | ha
        · exact hcur
        · exact haddr₂ a ha

theorem mergeMessagesAddr_ext (addrs : List Nat) (st : Store) :
    StoreExt st (mergeMessagesAddr st addrs).1 ∧
    ∀ a ∈ (mergeMessagesAddr st addrs).2, st.length ≤ a := by
  cases addrs with
  | nil => exact ⟨StoreExt.refl st, by simp [mergeMessagesAddr]⟩
  | cons a rest =>
      rw [mergeMessagesAddr]
      exact mergeLoopAddr_ext rest st (st ++ [readAddr st a]) st.length (le_refl _)
        (StoreExt.snoc ..)

theorem prepareAddrNoBp_ext (st : Store) (body : RequestBody) :
    StoreExt st (prepareAddrNoBp st body).1 ∧
    ∀ a ∈ (prepareAddrNoBp st body).2, st.length ≤ a := by
  obtain ⟨hextc, haddrc⟩ := allocCopies_ext (historicMessages body) st
  have hfin : ∀ wu : Store × List Nat, StoreExt st wu.1 → (∀ a ∈ wu.2, st.length ≤ a) →
      StoreExt st (if wu.2.isEmpty ∧ ¬body.messages.isEmpty then
          allocCopies wu.1 body.messages else wu).1 ∧
      ∀ a ∈ (if wu.2.isEmpty ∧ ¬body.messages.isEmpty then
          allocCopies wu.1 body.messages else wu).2, st.length ≤ a := by
    intro wu hext haddr
    split
    · exact ⟨hext.trans (allocCopies_ext _ _).1,
        fun a ha => le_trans hext.1 ((allocCopies_ext _ _).2 a ha)⟩
    · exact ⟨hext, haddr⟩
  simp only [prepareAddrNoBp]
  refine hfin _ ?_ ?_
  · split
    · exact hextc.trans (StoreExt.snoc ..)
    · split
      · split
        · exact hextc.trans (StoreExt.snoc ..)
        · exact hextc
      · exact hextc
  · intro a ha
    split at ha
    · rcases List.mem_append.mp ha with ha | ha
      · exact haddrc a ha
      · simp only [List.mem_singleton] at ha
        exact ha ▸ hextc.1
    · split at ha
      · split at ha
        · rcases List.mem_append.mp ha with ha | ha
          · exact haddrc a ha
          · simp only [List.mem_singleton] at ha
            exact ha ▸ hextc.1
        · exact haddrc a ha
      · exact haddrc a ha

theorem prepareAddrBp_ext (st : Store) (body : RequestBody)
    (currentBlueprints : List Blueprint) :
    StoreExt st (prepareAddrBp st body currentBlueprints).1 ∧
    ∀ a ∈ (prepareAddrBp st body currentBlueprints).2, st.length ≤ a := by
  obtain ⟨hext, haddr⟩ := processBlueprintsAddr_ext (historicMessages body)
    (lastUserInput body) (lastUserTextOf (lastUserInput body)) currentBlueprints st
  constructor
  · simp only [prepareAddrBp]
    split
    · exact hext.trans (StoreExt.snoc ..)
    · exact hext
  · intro a ha
    simp only [prepareAddrBp] at ha
    split at ha
    · rcases List.mem_append.mp ha with ha | ha
      · exact haddr a ha
      · simp only [List.mem_singleton] at ha
        exact ha ▸ hext.1
    · exact haddr a ha

theorem prepareAddrStep4_ext (bpW bpWo : List Blueprint) (st : Store) (msgAddrs : List Nat) :
    StoreExt st (prepareAddrStep4 bpW bpWo st msgAddrs).1 ∧
    ∀ a ∈ (prepareAddrStep4 bpW bpWo st msgAddrs).2, st.length ≤ a := by
  simp only [prepareAddrStep4]
  split <;> split <;>
    first
      | exact prepareAddrNoBp_ext st _
      | exact prepareAddrBp_ext st _ _

/-- C10: the preparer mutates no pre-existing message object — every cell of
the incoming store (the body's message objects included) is unchanged — and
every returned message address is freshly allocated during the call, never
an alias of an input message. -/
theorem prepare_no_input_mutation (bpW bpWo : List Blueprint) (g : Nat → Nat)
    (st : Store) (msgAddrs : List Nat) :
    (∀ i, i < st.length →
      (prepareAddr bpW bpWo g st msgAddrs).1.get? i = st.get? i) ∧
    (∀ a ∈ (prepareAddr bpW bpWo g st msgAddrs).2, st.length ≤ a) := by
  obtain ⟨h4ext, h4addr⟩ := prepareAddrStep4_ext bpW bpWo st msgAddrs
  obtain ⟨h5ext, h5addr⟩ := expandAddrs_ext g (prepareAddrStep4 bpW bpWo st msgAddrs).2
    (prepareAddrStep4 bpW bpWo st msgAddrs).1 0
  obtain ⟨h7ext, h7addr⟩ := mergeMessagesAddr_ext
    ((expandAddrs g (prepareAddrStep4 bpW bpWo st msgAddrs).1 0
        (prepareAddrStep4 bpW bpWo st msgAddrs).2).2.1.filter fun a =>
      keepMessage (readAddr (expandAddrs g (prepareAddrStep4 bpW bpWo st msgAddrs).1 0
        (prepareAddrStep4 bpW bpWo st msgAddrs).2).1 a))
    (expandAddrs g (prepareAddrStep4 bpW bpWo st msgAddrs).1 0
      (prepareAddrStep4 bpW bpWo st msgAddrs).2).1
  have hfinal : StoreExt st (prepareAddr bpW bpWo g st msgAddrs).1 := by
    simp only [prepareAddr]
    exact (h4ext.trans h5ext).trans h7ext
  constructor
  · exact fun i hi => hfinal.2 i hi
  · intro a ha
    simp only [prepareAddr] at ha
    have := h7addr a ha
    have hlen := (h4ext.trans h5ext).1
    omega

theorem prepare_no_input_mutation_witness :
    0 < 1 ∧
    (prepareAddr [] [] (fun _ => 0)
        [⟨some "user", Content.str "hi"⟩] [0]).1.get? 0
      = [(⟨some "user", Content.str "hi"⟩ : Msg)].get? 0 :=
  ⟨by decide,
    (prepare_no_input_mutation [] [] (fun _ => 0)
      [⟨some "user", Content.str "hi"⟩] [0]).1 0 (by decide)⟩

end Hajimir
